/-
Verification development for the portfolio rebalancer (src/portfolio.py).

The Python program is shallowly embedded:
  * Python floats are modelled as exact rationals (ℚ).
  * Python dicts are modelled as insertion-ordered association lists
    (`List (String × α)`): lookup finds the first matching key, assignment
    `d[k] = v` updates the first matching entry in place or appends a fresh
    entry at the end, and iteration follows the list order.  This matches
    CPython's insertion-ordered dict semantics.
  * Python exceptions (`ValueError` raised by the program, `KeyError` raised
    by an unguarded `dict[...]` lookup) are modelled with an error type;
    operations that can both mutate state and raise return a pair of the
    `Except` result and the post state, because a raised exception leaves the
    mutations already performed in place.
-/
import Mathlib

namespace PortfolioRebalancer

/-- Errors the program can raise: `ValueError` for a target allocation whose
fractions do not sum to 1.0, `ValueError` for a symbol that is not a known
tradable stock, and `KeyError` for an unguarded dict lookup that misses. -/
inductive Err where
  | invalidAllocation : Err
  | unknownSymbol : Err
  | keyError : Err
deriving DecidableEq, Repr

/-- `class Stock`: holds its symbol and its current price. -/
structure Stock where
  symbol : String
  price : ℚ
deriving DecidableEq, Repr

/-- `Stock.current_price`: returns the stored price. -/
def Stock.current_price (s : Stock) : ℚ := s.price

/-- Dict lookup `d.get(k)` / `d[k]`: first entry with the given key. -/
def alookup {α : Type} : List (String × α) → String → Option α
  | [], _ => none
  | e :: rest, s => if e.1 = s then some e.2 else alookup rest s

/-- Dict assignment `d[k] = v`: update the first entry with key `k` in place,
or append a new entry at the end, as an insertion-ordered Python dict does. -/
def aset {α : Type} : List (String × α) → String → α → List (String × α)
  | [], k, v => [(k, v)]
  | e :: rest, k, v => if e.1 = k then (k, v) :: rest else e :: aset rest k v

/-- `class Portfolio`: registry of tradable stocks (`stock_objects`), target
allocation and holdings, all insertion-ordered dicts. -/
structure Portfolio where
  stock_objects : List (String × Stock)
  target_allocation : List (String × ℚ)
  holdings : List (String × ℚ)
deriving DecidableEq, Repr

/-- `{stock.symbol: stock for stock in all_tradable_stocks}`: a dict
comprehension; a later duplicate symbol overwrites the earlier value. -/
def build_registry (all_tradable_stocks : List Stock) : List (String × Stock) :=
  all_tradable_stocks.foldl (fun m st => aset m st.symbol st) []

/-- `Portfolio.__init__`: rejects a target allocation whose values do not sum
to exactly `1.0`, stores the target allocation, the registry and the supplied
initial holdings (an absent argument means an empty dict), then rejects any
target-allocation symbol that is not a tradable stock. -/
def Portfolio.init (all_tradable_stocks : List Stock)
    (target_allocation : List (String × ℚ))
    (initial_holdings : Option (List (String × ℚ))) : Except Err Portfolio :=
  if ¬ (target_allocation.map Prod.snd).sum = 1 then
    .error .invalidAllocation
  else
    let stock_objects := build_registry all_tradable_stocks
    let holdings := initial_holdings.getD []
    if target_allocation.all (fun e => (alookup stock_objects e.1).isSome) then
      .ok ⟨stock_objects, target_allocation, holdings⟩
    else
      .error .unknownSymbol

/-- `Portfolio.add_position`: raises for a symbol that is not a known tradable
stock (before touching any state); otherwise adds the shares to the holdings
entry when `shares > 0` and does nothing when `shares ≤ 0`. -/
def add_position (p : Portfolio) (symbol : String) (shares : ℚ) :
    Except Err Unit × Portfolio :=
  if (alookup p.stock_objects symbol).isSome then
    if 0 < shares then
      let new_holdings := aset p.holdings symbol ((alookup p.holdings symbol).getD 0 + shares)
      (.ok (), { p with holdings := new_holdings })
    else
      (.ok (), p)
  else
    (.error .unknownSymbol, p)

/-- The loop of `get_total_value`: accumulate `shares * price` over the
holdings entries; an unguarded `self.stock_objects[symbol]` lookup of a held
symbol missing from the registry raises `KeyError`. -/
def total_value_aux (reg : List (String × Stock)) :
    List (String × ℚ) → ℚ → Except Err ℚ
  | [], acc => .ok acc
  | e :: rest, acc =>
    match alookup reg e.1 with
    | none => .error .keyError
    | some stock => total_value_aux reg rest (acc + e.2 * stock.current_price)

/-- `Portfolio.get_total_value`. -/
def get_total_value (p : Portfolio) : Except Err ℚ :=
  total_value_aux p.stock_objects p.holdings 0

/-- One record printed by `get_current_allocation`: symbol, share count,
value, and percentage of the total portfolio value. -/
structure AllocEntry where
  symbol : String
  shares : ℚ
  value : ℚ
  percentage : ℚ
deriving DecidableEq, Repr

/-- One step of insertion sort on dict entries, ordered by symbol. -/
def insertSorted (x : String × ℚ) : List (String × ℚ) → List (String × ℚ)
  | [] => [x]
  | y :: ys => if x.1 ≤ y.1 then x :: y :: ys else y :: insertSorted x ys

/-- `sorted(self.holdings.items())`: the holdings entries ordered by symbol
(Python orders the `(symbol, shares)` tuples; with unique symbols that is
exactly symbol order). -/
def sortByKey (l : List (String × ℚ)) : List (String × ℚ) :=
  l.foldr insertSorted []

/-- The loop of `get_current_allocation`: walk the sorted holdings, compute
each entry's value and percentage of total, and keep the entries whose
percentage is strictly positive. -/
def alloc_aux (reg : List (String × Stock)) (total : ℚ) :
    List (String × ℚ) → List AllocEntry → Except Err (List AllocEntry)
  | [], acc => .ok acc
  | e :: rest, acc =>
    match alookup reg e.1 with
    | none => .error .keyError
    | some stock =>
      let value := e.2 * stock.current_price
      let pct := if 0 < total then value / total * 100 else 0
      if 0 < pct then alloc_aux reg total rest (acc ++ [⟨e.1, e.2, value, pct⟩])
      else alloc_aux reg total rest acc

/-- `Portfolio.get_current_allocation`, with the printed lines modelled as the
list of records they display: an empty portfolio (total value `0`) reports an
empty placeholder, otherwise each held entry is shown in symbol order when its
percentage of the total is positive. -/
def get_current_allocation (p : Portfolio) : Except Err (List AllocEntry) :=
  match get_total_value p with
  | .error e => .error e
  | .ok total =>
    if total = 0 then .ok []
    else alloc_aux p.stock_objects total (sortByKey p.holdings) []

/-- Round a rational to the nearest integer, ties to the even integer: the
rounding used by Python's `round`. -/
def roundHalfEven (q : ℚ) : ℤ :=
  let f := ⌊q⌋
  let r := q - f
  if r < 1/2 then f
  else if 1/2 < r then f + 1
  else if f % 2 = 0 then f else f + 1

/-- Python's `round(x, 2)`: round to two decimal places, ties to even. -/
def round2 (q : ℚ) : ℚ :=
  (roundHalfEven (q * 100) : ℚ) / 100

/-- A buy or sell order of the rebalance plan:
`{"symbol": ..., "amount_in_dollars": ...}`. -/
structure Order where
  symbol : String
  amount_in_dollars : ℚ
deriving DecidableEq, Repr

/-- The `actions` dict `{"buy": [...], "sell": [...]}`. -/
structure Plan where
  buy : List Order
  sell : List Order
deriving DecidableEq, Repr

/-- The backfill loop of `create_rebalance_plan`: every registry symbol not
yet present in the target allocation is assigned target fraction `0.0`. -/
def backfill (reg : List (String × Stock)) (target : List (String × ℚ)) :
    List (String × ℚ) :=
  reg.foldl (fun t e => if (alookup t e.1).isSome then t else aset t e.1 0) target

/-- The classification loop of `create_rebalance_plan`: for each target entry
compute `target_value - current_value` and append a buy order (difference
above `0.01`) or a sell order (difference below `-0.01`) to the accumulated
plan, rounding the amount to two decimal places. -/
def classify (total : ℚ) (reg : List (String × Stock))
    (hold : List (String × ℚ)) :
    List (String × ℚ) → Plan → Except Err Plan
  | [], acc => .ok acc
  | e :: rest, acc =>
    match alookup reg e.1 with
    | none => .error .keyError
    | some stock =>
      let target_value := total * e.2
      let current_value := (alookup hold e.1).getD 0 * stock.current_price
      let value_difference := target_value - current_value
      if 1/100 < value_difference then
        classify total reg hold rest
          ⟨acc.buy ++ [⟨e.1, round2 value_difference⟩], acc.sell⟩
      else if value_difference < -(1/100) then
        classify total reg hold rest
          ⟨acc.buy, acc.sell ++ [⟨e.1, round2 |value_difference|⟩]⟩
      else
        classify total reg hold rest acc

/-- `Portfolio.create_rebalance_plan`: returns the computed plan together
with the post-call engine state, because the backfill mutates the stored
target allocation and that mutation persists even when the later
classification loop raises. -/
def create_rebalance_plan (p : Portfolio) : Except Err Plan × Portfolio :=
  match get_total_value p with
  | .error e => (.error e, p)
  | .ok total =>
    if total = 0 then (.ok ⟨[], []⟩, p)
    else
      let t2 := backfill p.stock_objects p.target_allocation
      let p2 := { p with target_allocation := t2 }
      (classify total p.stock_objects p.holdings t2 ⟨[], []⟩, p2)

/-- The body of the sell loop of `execute_rebalance`: with a positive price,
clamp the holdings entry at `max 0 (held - amount/price)`; with a
non-positive price do nothing; a symbol missing from the registry raises
`KeyError`. -/
def sellStep (p : Portfolio) (o : Order) : Except Err Portfolio :=
  match alookup p.stock_objects o.symbol with
  | none => .error .keyError
  | some stock =>
    if 0 < stock.current_price then
      let shares_to_sell := o.amount_in_dollars / stock.current_price
      let new_holdings := aset p.holdings o.symbol (max 0 ((alookup p.holdings o.symbol).getD 0 - shares_to_sell))
      .ok { p with holdings := new_holdings }
    else
      .ok p

/-- The body of the buy loop of `execute_rebalance`: with a positive price,
add `amount/price` shares to the holdings entry; with a non-positive price do
nothing; a symbol missing from the registry raises `KeyError`. -/
def buyStep (p : Portfolio) (o : Order) : Except Err Portfolio :=
  match alookup p.stock_objects o.symbol with
  | none => .error .keyError
  | some stock =>
    if 0 < stock.current_price then
      let shares_to_buy := o.amount_in_dollars / stock.current_price
      let new_holdings := aset p.holdings o.symbol ((alookup p.holdings o.symbol).getD 0 + shares_to_buy)
      .ok { p with holdings := new_holdings }
    else
      .ok p

/-- Run a loop body over a list of orders; a raised error stops the loop but
keeps the holdings updates already performed. -/
def runOrders (step : Portfolio → Order → Except Err Portfolio) :
    Portfolio → List Order → Except Err Unit × Portfolio
  | p, [] => (.ok (), p)
  | p, o :: rest =>
    match step p o with
    | .error e => (.error e, p)
    | .ok p' => runOrders step p' rest

/-- `Portfolio.execute_rebalance`: run the sell loop over `plan["sell"]`, then
the buy loop over `plan["buy"]`. -/
def execute_rebalance (p : Portfolio) (plan : Plan) :
    Except Err Unit × Portfolio :=
  match runOrders sellStep p plan.sell with
  | (.ok _, p1) => runOrders buyStep p1 plan.buy
  | (.error e, p1) => (.error e, p1)

/-! ### Association-list lemmas -/

theorem alookup_aset_self {α : Type} (m : List (String × α)) (k : String) (v : α) :
    alookup (aset m k v) k = some v := by
  induction m with
  | nil => simp [aset, alookup]
  | cons e rest ih =>
    by_cases h : e.1 = k
    · simp [aset, h, alookup]
    · simp [aset, h, alookup, ih]

theorem alookup_aset_ne {α : Type} (m : List (String × α)) (k k' : String) (v : α)
    (h : k' ≠ k) : alookup (aset m k v) k' = alookup m k' := by
  have hk : ¬(k = k') := fun h' => h h'.symm
  induction m with
  | nil => simp [aset, alookup, hk]
  | cons e rest ih =>
    by_cases he : e.1 = k
    · rw [aset, if_pos he, alookup, alookup, if_neg hk, he, if_neg hk]
    · rw [aset, if_neg he, alookup, alookup]
      by_cases he' : e.1 = k'
      · rw [if_pos he', if_pos he']
      · rw [if_neg he', if_neg he', ih]

theorem alookup_mem {α : Type} (m : List (String × α)) (k : String) (v : α)
    (h : alookup m k = some v) : (k, v) ∈ m := by
  induction m with
  | nil => simp [alookup] at h
  | cons e rest ih =>
    by_cases he : e.1 = k
    · simp [alookup, he] at h
      rw [← he, ← h]
      exact List.mem_cons_self e rest
    · simp [alookup, he] at h
      exact List.mem_cons_of_mem e (ih h)

theorem alookup_eq_none {α : Type} (m : List (String × α)) (k : String) :
    alookup m k = none ↔ k ∉ m.map Prod.fst := by
  induction m with
  | nil => simp [alookup]
  | cons e rest ih =>
    by_cases he : e.1 = k
    · simp [alookup, he]
    · have hk : ¬(k = e.1) := fun h => he h.symm
      simp [alookup, he, ih, hk]

theorem alookup_isSome_of_mem_keys {α : Type} (m : List (String × α)) (k : String)
    (h : k ∈ m.map Prod.fst) : (alookup m k).isSome := by
  cases hk : alookup m k with
  | none => exact absurd h ((alookup_eq_none m k).mp hk)
  | some v => rfl

theorem mem_keys_of_alookup_isSome {α : Type} (m : List (String × α)) (k : String)
    (h : (alookup m k).isSome) : k ∈ m.map Prod.fst := by
  by_contra hk
  rw [← alookup_eq_none m k] at hk
  rw [hk] at h
  simp at h

theorem alookup_of_nodup_mem {α : Type} (m : List (String × α)) (k : String) (v : α)
    (hnd : (m.map Prod.fst).Nodup) (h : (k, v) ∈ m) : alookup m k = some v := by
  induction m with
  | nil => simp at h
  | cons e rest ih =>
    rw [List.map_cons, List.nodup_cons] at hnd
    rcases List.mem_cons.mp h with h1 | h1
    · rw [← h1]
      simp [alookup]
    · have hk : e.1 ≠ k := by
        intro hek
        exact hnd.1 (hek ▸ (List.mem_map.mpr ⟨(k, v), h1, rfl⟩))
      simp [alookup, hk]
      exact ih hnd.2 h1

theorem alookup_nodup_unique {α : Type} (m : List (String × α)) (k : String) (v v' : α)
    (hnd : (m.map Prod.fst).Nodup) (h : (k, v) ∈ m) (h' : (k, v') ∈ m) : v = v' := by
  have e1 := alookup_of_nodup_mem m k v hnd h
  have e2 := alookup_of_nodup_mem m k v' hnd h'
  rw [e1] at e2
  exact Option.some_injective _ e2

theorem aset_append_of_none {α : Type} (m : List (String × α)) (k : String) (v : α)
    (h : alookup m k = none) : aset m k v = m ++ [(k, v)] := by
  induction m with
  | nil => simp [aset]
  | cons e rest ih =>
    by_cases he : e.1 = k
    · simp [alookup, he] at h
    · simp [alookup, he] at h
      simp [aset, he, ih h]

theorem aset_forall {α : Type} (m : List (String × α)) (k : String) (v : α)
    (P : String × α → Prop) (hm : ∀ e ∈ m, P e) (hv : P (k, v)) :
    ∀ e ∈ aset m k v, P e := by
  induction m with
  | nil =>
    simp [aset]
    exact hv
  | cons e rest ih =>
    by_cases he : e.1 = k
    · rw [aset, if_pos he]
      intro x hx
      rcases List.mem_cons.mp hx with h1 | h1
      · exact h1 ▸ hv
      · exact hm x (List.mem_cons_of_mem e h1)
    · rw [aset, if_neg he]
      intro x hx
      rcases List.mem_cons.mp hx with h1 | h1
      · exact h1 ▸ hm e (List.mem_cons_self e rest)
      · exact ih (fun y hy => hm y (List.mem_cons_of_mem e hy)) x h1

/-! ### Rounding lemmas -/

theorem roundHalfEven_close (q : ℚ) : |q - roundHalfEven q| ≤ 1/2 := by
  have hf : (⌊q⌋ : ℚ) ≤ q := Int.floor_le q
  have hc : q - ⌊q⌋ < 1 := by
    have := Int.lt_floor_add_one q
    linarith
  rw [roundHalfEven]
  split_ifs with h1 h2 h3
  · rw [abs_le]
    constructor <;> push_cast <;> linarith
  · rw [abs_le]
    constructor <;> push_cast <;> linarith
  · rw [abs_le]
    have : q - ⌊q⌋ = 1/2 := le_antisymm (not_lt.mp h2) (not_lt.mp h1)
    constructor <;> [push_cast; push_cast] <;> linarith
  · rw [abs_le]
    have : q - ⌊q⌋ = 1/2 := le_antisymm (not_lt.mp h2) (not_lt.mp h1)
    constructor <;> [push_cast; push_cast] <;> linarith

theorem round2_close (q : ℚ) : |q - round2 q| ≤ 1/200 := by
  have h := roundHalfEven_close (q * 100)
  rw [round2]
  have : q - (roundHalfEven (q * 100) : ℚ) / 100 = (q * 100 - roundHalfEven (q * 100)) / 100 := by
    ring
  rw [this, abs_div]
  rw [show |(100 : ℚ)| = 100 by norm_num]
  linarith [abs_nonneg (q * 100 - (roundHalfEven (q * 100) : ℚ))]

theorem round2_pos (q : ℚ) (h : 1/100 < q) : 0 < round2 q := by
  have hc := abs_le.mp (round2_close q)
  linarith

/-! ### Backfill lemmas -/

theorem backfill_nil (t : List (String × ℚ)) : backfill [] t = t := rfl

theorem backfill_cons (r : String × Stock) (rest : List (String × Stock))
    (t : List (String × ℚ)) :
    backfill (r :: rest) t =
      if (alookup t r.1).isSome then backfill rest t else backfill rest (aset t r.1 0) := by
  by_cases h : (alookup t r.1).isSome
  · simp [backfill, h]
  · simp [backfill, h]

theorem alookup_append_of_mem_keys {α : Type} (m m' : List (String × α)) (k : String)
    (h : k ∈ m.map Prod.fst) : (alookup (m ++ m') k).isSome := by
  apply alookup_isSome_of_mem_keys
  rw [List.map_append]
  exact List.mem_append_left _ h

theorem backfill_spec (reg : List (String × Stock)) :
    ∀ t : List (String × ℚ), ∃ extra,
      backfill reg t = t ++ extra
      ∧ (∀ e ∈ extra, e.2 = 0 ∧ alookup t e.1 = none ∧ e.1 ∈ reg.map Prod.fst)
      ∧ (∀ e ∈ reg, (alookup (backfill reg t) e.1).isSome) := by
  induction reg with
  | nil =>
    intro t
    exact ⟨[], by simp [backfill_nil], by simp, by simp⟩
  | cons r rest ih =>
    intro t
    rw [backfill_cons]
    by_cases hr : (alookup t r.1).isSome
    · rw [if_pos hr]
      obtain ⟨extra, he, hprop, hres⟩ := ih t
      refine ⟨extra, he, fun e hx => ?_, ?_⟩
      · obtain ⟨h0, hn, hm⟩ := hprop e hx
        exact ⟨h0, hn, List.mem_cons_of_mem _ hm⟩
      · intro e hx
        rcases List.mem_cons.mp hx with h1 | h1
        · rw [he, h1]
          exact alookup_append_of_mem_keys t extra r.1 (mem_keys_of_alookup_isSome t r.1 hr)
        · exact hres e h1
    · rw [if_neg hr]
      have hnone : alookup t r.1 = none := Option.not_isSome_iff_eq_none.mp hr
      rw [aset_append_of_none t r.1 0 hnone]
      obtain ⟨extra, he, hprop, hres⟩ := ih (t ++ [(r.1, 0)])
      rw [List.append_assoc] at he
      refine ⟨(r.1, 0) :: extra, he, fun e hx => ?_, ?_⟩
      · rcases List.mem_cons.mp hx with h1 | h1
        · rw [h1]
          exact ⟨rfl, hnone, List.mem_cons_self _ _⟩
        · obtain ⟨h0, hn, hm⟩ := hprop e h1
          rw [alookup_eq_none, List.map_append] at hn
          refine ⟨h0, ?_, List.mem_cons_of_mem _ hm⟩
          rw [alookup_eq_none]
          intro hc
          exact hn (List.mem_append_left _ hc)
      · intro e hx
        rcases List.mem_cons.mp hx with h1 | h1
        · rw [he, ← List.append_assoc, h1]
          apply alookup_append_of_mem_keys
          rw [List.map_append]
          exact List.mem_append_right _ (by simp)
        · exact hres e h1

theorem backfill_nodup (reg : List (String × Stock)) :
    ∀ t : List (String × ℚ), (t.map Prod.fst).Nodup →
      ((backfill reg t).map Prod.fst).Nodup := by
  induction reg with
  | nil =>
    intro t ht
    rw [backfill_nil]
    exact ht
  | cons r rest ih =>
    intro t ht
    rw [backfill_cons]
    by_cases hr : (alookup t r.1).isSome
    · rw [if_pos hr]
      exact ih t ht
    · rw [if_neg hr]
      apply ih
      have hnone : alookup t r.1 = none := Option.not_isSome_iff_eq_none.mp hr
      rw [aset_append_of_none t r.1 0 hnone, List.map_append]
      simp only [List.map_cons, List.map_nil]
      rw [List.nodup_append]
      refine ⟨ht, List.nodup_singleton _, ?_⟩
      intro a ha hb
      simp only [List.map_cons, List.map_nil, List.mem_singleton] at hb
      rw [hb] at ha
      exact (alookup_eq_none t r.1).mp hnone ha

theorem backfill_complete_id (reg : List (String × Stock)) :
    ∀ t : List (String × ℚ), (∀ e ∈ reg, (alookup t e.1).isSome) →
      backfill reg t = t := by
  induction reg with
  | nil =>
    intro t _
    exact backfill_nil t
  | cons r rest ih =>
    intro t h
    rw [backfill_cons, if_pos (h r (List.mem_cons_self r rest))]
    exact ih t (fun e he => h e (List.mem_cons_of_mem r he))

/-! ### Classification lemmas -/

/-- Specification of one classification decision: the buy order the loop
appends for a target entry, if any. -/
def buySel (total : ℚ) (reg : List (String × Stock)) (hold : List (String × ℚ))
    (e : String × ℚ) : Option Order :=
  match alookup reg e.1 with
  | none => none
  | some stock =>
    let d := total * e.2 - (alookup hold e.1).getD 0 * stock.current_price
    if 1/100 < d then some ⟨e.1, round2 d⟩ else none

/-- Specification of one classification decision: the sell order the loop
appends for a target entry, if any. -/
def sellSel (total : ℚ) (reg : List (String × Stock)) (hold : List (String × ℚ))
    (e : String × ℚ) : Option Order :=
  match alookup reg e.1 with
  | none => none
  | some stock =>
    let d := total * e.2 - (alookup hold e.1).getD 0 * stock.current_price
    if 1/100 < d then none
    else if d < -(1/100) then some ⟨e.1, round2 |d|⟩ else none

theorem classify_eq (total : ℚ) (reg : List (String × Stock))
    (hold : List (String × ℚ)) :
    ∀ (t : List (String × ℚ)) (acc : Plan),
      (∀ e ∈ t, (alookup reg e.1).isSome) →
      classify total reg hold t acc =
        .ok ⟨acc.buy ++ t.filterMap (buySel total reg hold),
             acc.sell ++ t.filterMap (sellSel total reg hold)⟩ := by
  intro t
  induction t with
  | nil =>
    intro acc _
    simp [classify]
  | cons e rest ih =>
    intro acc h
    obtain ⟨stock, hs⟩ := Option.isSome_iff_exists.mp (h e (List.mem_cons_self e rest))
    have hrest : ∀ x ∈ rest, (alookup reg x.1).isSome :=
      fun x hx => h x (List.mem_cons_of_mem e hx)
    rw [classify, hs]
    simp only [List.filterMap_cons, buySel, sellSel, hs]
    by_cases h1 : 1/100 < total * e.2 - (alookup hold e.1).getD 0 * stock.current_price
    · rw [if_pos h1, if_pos h1, if_pos h1, ih _ hrest]
      simp
    · rw [if_neg h1, if_neg h1, if_neg h1]
      by_cases h2 : total * e.2 - (alookup hold e.1).getD 0 * stock.current_price < -(1/100)
      · rw [if_pos h2, if_pos h2, ih _ hrest]
        simp
      · rw [if_neg h2, if_neg h2, ih _ hrest]

theorem classify_ok_resolvable (total : ℚ) (reg : List (String × Stock))
    (hold : List (String × ℚ)) :
    ∀ (t : List (String × ℚ)) (acc pl : Plan),
      classify total reg hold t acc = .ok pl →
      ∀ e ∈ t, (alookup reg e.1).isSome := by
  intro t
  induction t with
  | nil =>
    intro acc pl _ e he
    simp at he
  | cons e rest ih =>
    intro acc pl hok x hx
    rw [classify] at hok
    cases hs : alookup reg e.1 with
    | none =>
      rw [hs] at hok
      simp at hok
    | some stock =>
      rw [hs] at hok
      dsimp only at hok
      rcases List.mem_cons.mp hx with h1 | h1
      · rw [h1, hs]
        rfl
      · split_ifs at hok <;> exact ih _ _ hok x h1

/-- The symbol of every selected order is the key of the selecting entry, so
selected symbols always come from the traversed entries. -/
theorem buySel_symbol (total : ℚ) (reg : List (String × Stock))
    (hold : List (String × ℚ)) (e : String × ℚ) (o : Order)
    (h : buySel total reg hold e = some o) : o.symbol = e.1 := by
  rw [buySel] at h
  cases hs : alookup reg e.1 with
  | none => rw [hs] at h; simp at h
  | some stock =>
    rw [hs] at h
    simp only at h
    split_ifs at h
    exact congrArg Order.symbol (Option.some_injective _ h) |>.symm ▸ rfl

theorem sellSel_symbol (total : ℚ) (reg : List (String × Stock))
    (hold : List (String × ℚ)) (e : String × ℚ) (o : Order)
    (h : sellSel total reg hold e = some o) : o.symbol = e.1 := by
  rw [sellSel] at h
  cases hs : alookup reg e.1 with
  | none => rw [hs] at h; simp at h
  | some stock =>
    rw [hs] at h
    simp only at h
    split_ifs at h
    exact congrArg Order.symbol (Option.some_injective _ h) |>.symm ▸ rfl

/-! ### Valuation lemmas -/

theorem total_value_aux_nonneg (reg : List (String × Stock))
    (hpr : ∀ e ∈ reg, 0 ≤ e.2.current_price) :
    ∀ (hold : List (String × ℚ)) (acc T : ℚ),
      (∀ e ∈ hold, 0 ≤ e.2) → 0 ≤ acc →
      total_value_aux reg hold acc = .ok T → 0 ≤ T := by
  intro hold
  induction hold with
  | nil =>
    intro acc T _ hacc h
    rw [total_value_aux] at h
    cases h
    exact hacc
  | cons e rest ih =>
    intro acc T hh hacc h
    rw [total_value_aux] at h
    cases hs : alookup reg e.1 with
    | none => rw [hs] at h; cases h
    | some stock =>
      rw [hs] at h
      refine ih _ T (fun x hx => hh x (List.mem_cons_of_mem e hx)) ?_ h
      have h1 : 0 ≤ e.2 := hh e (List.mem_cons_self e rest)
      have h2 : 0 ≤ stock.current_price :=
        hpr (e.1, stock) (alookup_mem reg e.1 stock hs)
      positivity

/-! ### Execution lemmas -/

theorem sellStep_pos_price (p : Portfolio) (o : Order) (stock : Stock)
    (hs : alookup p.stock_objects o.symbol = some stock)
    (hp : 0 < stock.current_price) :
    sellStep p o = .ok ⟨p.stock_objects, p.target_allocation,
      aset p.holdings o.symbol
        (max 0 ((alookup p.holdings o.symbol).getD 0 -
          o.amount_in_dollars / stock.current_price))⟩ := by
  rw [sellStep, hs]
  dsimp only
  rw [if_pos hp]

theorem buyStep_pos_price (p : Portfolio) (o : Order) (stock : Stock)
    (hs : alookup p.stock_objects o.symbol = some stock)
    (hp : 0 < stock.current_price) :
    buyStep p o = .ok ⟨p.stock_objects, p.target_allocation,
      aset p.holdings o.symbol
        ((alookup p.holdings o.symbol).getD 0 +
          o.amount_in_dollars / stock.current_price)⟩ := by
  rw [buyStep, hs]
  dsimp only
  rw [if_pos hp]

theorem sellStep_nonpos_price (p : Portfolio) (o : Order) (stock : Stock)
    (hs : alookup p.stock_objects o.symbol = some stock)
    (hp : stock.current_price ≤ 0) : sellStep p o = .ok p := by
  rw [sellStep, hs]
  dsimp only
  rw [if_neg (not_lt.mpr hp)]

theorem buyStep_nonpos_price (p : Portfolio) (o : Order) (stock : Stock)
    (hs : alookup p.stock_objects o.symbol = some stock)
    (hp : stock.current_price ≤ 0) : buyStep p o = .ok p := by
  rw [buyStep, hs]
  dsimp only
  rw [if_neg (not_lt.mpr hp)]

theorem sellStep_fields (p : Portfolio) (o : Order) (p' : Portfolio)
    (h : sellStep p o = .ok p') :
    p'.stock_objects = p.stock_objects ∧ p'.target_allocation = p.target_allocation := by
  rw [sellStep] at h
  cases hs : alookup p.stock_objects o.symbol with
  | none => rw [hs] at h; cases h
  | some stock =>
    rw [hs] at h
    dsimp only at h
    split_ifs at h <;> cases h <;> exact ⟨rfl, rfl⟩

theorem buyStep_fields (p : Portfolio) (o : Order) (p' : Portfolio)
    (h : buyStep p o = .ok p') :
    p'.stock_objects = p.stock_objects ∧ p'.target_allocation = p.target_allocation := by
  rw [buyStep] at h
  cases hs : alookup p.stock_objects o.symbol with
  | none => rw [hs] at h; cases h
  | some stock =>
    rw [hs] at h
    dsimp only at h
    split_ifs at h <;> cases h <;> exact ⟨rfl, rfl⟩

theorem sellStep_untouched (p : Portfolio) (o : Order) (p' : Portfolio) (s : String)
    (hne : o.symbol ≠ s) (h : sellStep p o = .ok p') :
    alookup p'.holdings s = alookup p.holdings s := by
  rw [sellStep] at h
  cases hs : alookup p.stock_objects o.symbol with
  | none => rw [hs] at h; cases h
  | some stock =>
    rw [hs] at h
    dsimp only at h
    split_ifs at h <;> cases h
    · exact alookup_aset_ne _ _ _ _ (fun hc => hne hc.symm)
    · rfl

theorem buyStep_untouched (p : Portfolio) (o : Order) (p' : Portfolio) (s : String)
    (hne : o.symbol ≠ s) (h : buyStep p o = .ok p') :
    alookup p'.holdings s = alookup p.holdings s := by
  rw [buyStep] at h
  cases hs : alookup p.stock_objects o.symbol with
  | none => rw [hs] at h; cases h
  | some stock =>
    rw [hs] at h
    dsimp only at h
    split_ifs at h <;> cases h
    · exact alookup_aset_ne _ _ _ _ (fun hc => hne hc.symm)
    · rfl

theorem runOrders_fields (step : Portfolio → Order → Except Err Portfolio)
    (hstep : ∀ p o p', step p o = .ok p' →
      p'.stock_objects = p.stock_objects ∧ p'.target_allocation = p.target_allocation) :
    ∀ (l : List Order) (p : Portfolio) (r : Except Err Unit) (p' : Portfolio),
      runOrders step p l = (r, p') →
      p'.stock_objects = p.stock_objects ∧ p'.target_allocation = p.target_allocation := by
  intro l
  induction l with
  | nil =>
    intro p r p' h
    rw [runOrders] at h
    cases h
    exact ⟨rfl, rfl⟩
  | cons o rest ih =>
    intro p r p' h
    rw [runOrders] at h
    cases hs : step p o with
    | error e =>
      rw [hs] at h
      cases h
      exact ⟨rfl, rfl⟩
    | ok p1 =>
      rw [hs] at h
      obtain ⟨h1, h2⟩ := ih p1 r p' h
      obtain ⟨h3, h4⟩ := hstep p o p1 hs
      exact ⟨h1.trans h3, h2.trans h4⟩

theorem runOrders_untouched (step : Portfolio → Order → Except Err Portfolio) (s : String)
    (hstep : ∀ p o p', o.symbol ≠ s → step p o = .ok p' →
      alookup p'.holdings s = alookup p.holdings s) :
    ∀ (l : List Order) (p : Portfolio) (r : Except Err Unit) (p' : Portfolio),
      (∀ o ∈ l, o.symbol ≠ s) → runOrders step p l = (r, p') →
      alookup p'.holdings s = alookup p.holdings s := by
  intro l
  induction l with
  | nil =>
    intro p r p' _ h
    rw [runOrders] at h
    cases h
    rfl
  | cons o rest ih =>
    intro p r p' hne h
    rw [runOrders] at h
    cases hs : step p o with
    | error e =>
      rw [hs] at h
      cases h
      rfl
    | ok p1 =>
      rw [hs] at h
      have h1 := ih p1 r p' (fun x hx => hne x (List.mem_cons_of_mem o hx)) h
      have h2 := hstep p o p1 (hne o (List.mem_cons_self o rest)) hs
      exact h1.trans h2

theorem runOrders_append (step : Portfolio → Order → Except Err Portfolio) :
    ∀ (l1 l2 : List Order) (p : Portfolio),
      runOrders step p (l1 ++ l2) =
        match runOrders step p l1 with
        | (.ok _, p1) => runOrders step p1 l2
        | (.error e, p1) => (.error e, p1) := by
  intro l1
  induction l1 with
  | nil =>
    intro l2 p
    rw [List.nil_append, runOrders]
  | cons o rest ih =>
    intro l2 p
    rw [List.cons_append, runOrders, runOrders]
    cases hs : step p o with
    | error e => rfl
    | ok p1 => exact ih l2 p1

theorem runOrders_ok_split (step : Portfolio → Order → Except Err Portfolio)
    (l1 l2 : List Order) (o : Order) (p p' : Portfolio) (u : Unit)
    (h : runOrders step p (l1 ++ o :: l2) = (.ok u, p')) :
    ∃ p1 p2, runOrders step p l1 = (.ok (), p1) ∧ step p1 o = .ok p2 ∧
      runOrders step p2 l2 = (.ok u, p') := by
  rw [runOrders_append] at h
  cases hr : runOrders step p l1 with
  | mk r1 q1 =>
    rw [hr] at h
    cases r1 with
    | error e => simp at h
    | ok u1 =>
      cases u1
      dsimp only at h
      rw [runOrders] at h
      cases hs : step q1 o with
      | error e =>
        rw [hs] at h
        simp at h
      | ok p2 =>
        rw [hs] at h
        exact ⟨q1, p2, rfl, hs, h⟩

/-! ### Plan-creation lemmas -/

theorem create_rebalance_plan_eq (p : Portfolio) (T : ℚ)
    (hT : get_total_value p = .ok T) (hT0 : T ≠ 0) :
    create_rebalance_plan p =
      (classify T p.stock_objects p.holdings
        (backfill p.stock_objects p.target_allocation) ⟨[], []⟩,
       ⟨p.stock_objects, backfill p.stock_objects p.target_allocation, p.holdings⟩) := by
  rw [create_rebalance_plan, hT]
  dsimp only
  rw [if_neg hT0]

theorem create_rebalance_plan_zero (p : Portfolio)
    (hT : get_total_value p = .ok 0) :
    create_rebalance_plan p = (.ok ⟨[], []⟩, p) := by
  rw [create_rebalance_plan, hT]
  dsimp only
  rw [if_pos rfl]

/-- Every order of a plan produced by a successful classification loop has a
strictly positive dollar amount. -/
theorem classify_amounts_pos (total : ℚ) (reg : List (String × Stock))
    (hold : List (String × ℚ)) :
    ∀ (t : List (String × ℚ)) (acc pl : Plan),
      classify total reg hold t acc = .ok pl →
      (∀ o ∈ acc.buy, 0 < o.amount_in_dollars) →
      (∀ o ∈ acc.sell, 0 < o.amount_in_dollars) →
      (∀ o ∈ pl.buy, 0 < o.amount_in_dollars) ∧
      (∀ o ∈ pl.sell, 0 < o.amount_in_dollars) := by
  intro t
  induction t with
  | nil =>
    intro acc pl h hb hs
    rw [classify] at h
    cases h
    exact ⟨hb, hs⟩
  | cons e rest ih =>
    intro acc pl h hb hs
    rw [classify] at h
    cases hsreg : alookup reg e.1 with
    | none => rw [hsreg] at h; cases h
    | some stock =>
      rw [hsreg] at h
      dsimp only at h
      split_ifs at h with h1 h2
      · refine ih _ pl h ?_ hs
        intro o ho
        rcases List.mem_append.mp ho with h3 | h3
        · exact hb o h3
        · rw [List.mem_singleton.mp h3]
          exact round2_pos _ h1
      · refine ih _ pl h hb ?_
        intro o ho
        rcases List.mem_append.mp ho with h3 | h3
        · exact hs o h3
        · rw [List.mem_singleton.mp h3]
          apply round2_pos
          rw [abs_of_neg (by linarith)]
          linarith
      · exact ih _ pl h hb hs

theorem create_plan_amounts_pos (p : Portfolio) (pl : Plan) (p' : Portfolio)
    (h : create_rebalance_plan p = (.ok pl, p')) :
    (∀ o ∈ pl.buy, 0 < o.amount_in_dollars) ∧
    (∀ o ∈ pl.sell, 0 < o.amount_in_dollars) := by
  rw [create_rebalance_plan] at h
  cases hT : get_total_value p with
  | error e =>
    rw [hT] at h
    simp at h
  | ok total =>
    rw [hT] at h
    dsimp only at h
    split_ifs at h with h0
    · have : pl = ⟨[], []⟩ := by
        have h2 := congrArg Prod.fst h
        simp at h2
        exact h2.symm
      rw [this]
      exact ⟨by simp, by simp⟩
    · have hcl : classify total p.stock_objects p.holdings
          (backfill p.stock_objects p.target_allocation) ⟨[], []⟩ = .ok pl := by
        have := congrArg Prod.fst h
        simpa using this
      exact classify_amounts_pos total p.stock_objects p.holdings _ _ pl hcl
        (by simp) (by simp)

/-! ### Non-negativity of holdings -/

/-- Every holdings entry is non-negative. -/
def HoldingsNonneg (p : Portfolio) : Prop := ∀ e ∈ p.holdings, 0 ≤ e.2

theorem getD_nonneg_of_holdingsNonneg (p : Portfolio) (s : String)
    (h : HoldingsNonneg p) : 0 ≤ (alookup p.holdings s).getD 0 := by
  cases hl : alookup p.holdings s with
  | none => simp
  | some v =>
    simp only [Option.getD_some]
    exact h (s, v) (alookup_mem _ _ _ hl)

theorem sellStep_nonneg (p : Portfolio) (o : Order) (p' : Portfolio)
    (h : sellStep p o = .ok p') (hn : HoldingsNonneg p) : HoldingsNonneg p' := by
  rw [sellStep] at h
  cases hs : alookup p.stock_objects o.symbol with
  | none => rw [hs] at h; cases h
  | some stock =>
    rw [hs] at h
    dsimp only at h
    split_ifs at h <;> cases h
    · exact aset_forall _ _ _ _ hn (le_max_left 0 _)
    · exact hn

theorem buyStep_nonneg (p : Portfolio) (o : Order) (p' : Portfolio)
    (h : buyStep p o = .ok p') (ha : 0 ≤ o.amount_in_dollars)
    (hn : HoldingsNonneg p) : HoldingsNonneg p' := by
  rw [buyStep] at h
  cases hs : alookup p.stock_objects o.symbol with
  | none => rw [hs] at h; cases h
  | some stock =>
    rw [hs] at h
    dsimp only at h
    split_ifs at h with hp <;> cases h
    · apply aset_forall _ _ _ _ hn
      have h1 := getD_nonneg_of_holdingsNonneg p o.symbol hn
      have h2 : 0 ≤ o.amount_in_dollars / stock.current_price :=
        div_nonneg ha (le_of_lt hp)
      simpa using add_nonneg h1 h2
    · exact hn

theorem runOrders_sell_nonneg :
    ∀ (l : List Order) (p : Portfolio) (r : Except Err Unit) (p' : Portfolio),
      runOrders sellStep p l = (r, p') → HoldingsNonneg p → HoldingsNonneg p' := by
  intro l
  induction l with
  | nil =>
    intro p r p' h hn
    rw [runOrders] at h
    cases h
    exact hn
  | cons o rest ih =>
    intro p r p' h hn
    rw [runOrders] at h
    cases hs : sellStep p o with
    | error e =>
      rw [hs] at h
      cases h
      exact hn
    | ok p1 =>
      rw [hs] at h
      exact ih p1 r p' h (sellStep_nonneg p o p1 hs hn)

theorem runOrders_buy_nonneg :
    ∀ (l : List Order) (p : Portfolio) (r : Except Err Unit) (p' : Portfolio),
      (∀ o ∈ l, 0 ≤ o.amount_in_dollars) →
      runOrders buyStep p l = (r, p') → HoldingsNonneg p → HoldingsNonneg p' := by
  intro l
  induction l with
  | nil =>
    intro p r p' _ h hn
    rw [runOrders] at h
    cases h
    exact hn
  | cons o rest ih =>
    intro p r p' ha h hn
    rw [runOrders] at h
    cases hs : buyStep p o with
    | error e =>
      rw [hs] at h
      cases h
      exact hn
    | ok p1 =>
      rw [hs] at h
      exact ih p1 r p' (fun x hx => ha x (List.mem_cons_of_mem o hx)) h
        (buyStep_nonneg p o p1 hs (ha o (List.mem_cons_self o rest)) hn)

theorem add_position_nonneg (p : Portfolio) (s : String) (sh : ℚ)
    (hn : HoldingsNonneg p) : HoldingsNonneg (add_position p s sh).2 := by
  rw [add_position]
  split_ifs with h1 h2
  · apply aset_forall _ _ _ _ hn
    have := getD_nonneg_of_holdingsNonneg p s hn
    simpa using add_nonneg this (le_of_lt h2)
  · exact hn
  · exact hn

theorem create_rebalance_plan_holdings (p : Portfolio) :
    (create_rebalance_plan p).2.holdings = p.holdings ∧
    (create_rebalance_plan p).2.stock_objects = p.stock_objects := by
  rw [create_rebalance_plan]
  cases hT : get_total_value p with
  | error e => exact ⟨rfl, rfl⟩
  | ok total =>
    dsimp only
    split_ifs with h0
    · exact ⟨rfl, rfl⟩
    · exact ⟨rfl, rfl⟩

theorem alookup_append_left {α : Type} (m m' : List (String × α)) (k : String) (v : α)
    (h : alookup m k = some v) : alookup (m ++ m') k = some v := by
  induction m with
  | nil => simp [alookup] at h
  | cons e rest ih =>
    by_cases he : e.1 = k
    · rw [alookup, if_pos he] at h
      rw [List.cons_append, alookup, if_pos he]
      exact h
    · rw [alookup, if_neg he] at h
      rw [List.cons_append, alookup, if_neg he]
      exact ih h

theorem alookup_append_right {α : Type} (m m' : List (String × α)) (k : String)
    (h : alookup m k = none) : alookup (m ++ m') k = alookup m' k := by
  induction m with
  | nil => rw [List.nil_append]
  | cons e rest ih =>
    by_cases he : e.1 = k
    · rw [alookup, if_pos he] at h
      cases h
    · rw [alookup, if_neg he] at h
      rw [List.cons_append, alookup, if_neg he]
      exact ih h

/-! ### The worked example of the specification -/

/-- The tradable stocks of the worked example. -/
def demoStocks : List Stock :=
  [⟨"AAPL", 150⟩, ⟨"META", 300⟩, ⟨"GOOG", 135⟩, ⟨"MSFT", 250⟩]

/-- The target allocation of the worked example. -/
def demoTarget : List (String × ℚ) :=
  [("AAPL", 0.50), ("META", 0.30), ("GOOG", 0.20)]

/-- The initial holdings of the worked example. -/
def demoHoldings : List (String × ℚ) :=
  [("AAPL", 10), ("GOOG", 5), ("MSFT", 8)]

/-- The registry dict built from the worked example's stocks. -/
def demoRegistry : List (String × Stock) :=
  [("AAPL", ⟨"AAPL", 150⟩), ("META", ⟨"META", 300⟩),
   ("GOOG", ⟨"GOOG", 135⟩), ("MSFT", ⟨"MSFT", 250⟩)]

/-- The engine of the worked example. -/
def demoPortfolio : Portfolio := ⟨demoRegistry, demoTarget, demoHoldings⟩

theorem demo_init : Portfolio.init demoStocks demoTarget (some demoHoldings) =
    .ok demoPortfolio := by
  simp [Portfolio.init, build_registry, aset, alookup, demoStocks, demoTarget,
    demoHoldings, demoRegistry, demoPortfolio, List.all]
  norm_num

theorem demo_total_value : get_total_value demoPortfolio = .ok 4175 := by
  simp [get_total_value, total_value_aux, alookup, Stock.current_price,
    demoPortfolio, demoRegistry, demoHoldings]
  norm_num

/-- The rebalance plan of the worked example. -/
def demoPlan : Plan :=
  ⟨[⟨"AAPL", 587.50⟩, ⟨"META", 1252.50⟩, ⟨"GOOG", 160.00⟩], [⟨"MSFT", 2000.00⟩]⟩

theorem demo_backfill : backfill demoRegistry demoTarget = demoTarget ++ [("MSFT", 0)] := by
  simp [backfill, alookup, aset, demoRegistry, demoTarget]

theorem demo_buySel_AAPL :
    buySel 4175 demoRegistry demoHoldings ("AAPL", 0.50) = some ⟨"AAPL", 587.50⟩ := by
  simp [buySel, alookup, demoRegistry, demoHoldings, Stock.current_price]
  norm_num [round2, roundHalfEven]

theorem demo_buySel_META :
    buySel 4175 demoRegistry demoHoldings ("META", 0.30) = some ⟨"META", 1252.50⟩ := by
  simp [buySel, alookup, demoRegistry, demoHoldings, Stock.current_price]
  norm_num [round2, roundHalfEven]

theorem demo_buySel_GOOG :
    buySel 4175 demoRegistry demoHoldings ("GOOG", 0.20) = some ⟨"GOOG", 160.00⟩ := by
  simp [buySel, alookup, demoRegistry, demoHoldings, Stock.current_price]
  norm_num [round2, roundHalfEven]

theorem demo_buySel_MSFT :
    buySel 4175 demoRegistry demoHoldings ("MSFT", 0) = none := by
  simp [buySel, alookup, demoRegistry, demoHoldings, Stock.current_price]
  norm_num

theorem demo_sellSel_AAPL :
    sellSel 4175 demoRegistry demoHoldings ("AAPL", 0.50) = none := by
  simp [sellSel, alookup, demoRegistry, demoHoldings, Stock.current_price]
  norm_num

theorem demo_sellSel_META :
    sellSel 4175 demoRegistry demoHoldings ("META", 0.30) = none := by
  simp [sellSel, alookup, demoRegistry, demoHoldings, Stock.current_price]
  norm_num

theorem demo_sellSel_GOOG :
    sellSel 4175 demoRegistry demoHoldings ("GOOG", 0.20) = none := by
  simp [sellSel, alookup, demoRegistry, demoHoldings, Stock.current_price]
  norm_num

theorem demo_sellSel_MSFT :
    sellSel 4175 demoRegistry demoHoldings ("MSFT", 0) = some ⟨"MSFT", 2000.00⟩ := by
  simp [sellSel, alookup, demoRegistry, demoHoldings, Stock.current_price]
  norm_num [round2, roundHalfEven]

theorem demo_plan_eq : create_rebalance_plan demoPortfolio =
    (.ok demoPlan, ⟨demoRegistry, demoTarget ++ [("MSFT", 0)], demoHoldings⟩) := by
  rw [create_rebalance_plan_eq demoPortfolio 4175 demo_total_value (by norm_num)]
  rw [show demoPortfolio.stock_objects = demoRegistry from rfl,
      show demoPortfolio.holdings = demoHoldings from rfl,
      show demoPortfolio.target_allocation = demoTarget from rfl]
  rw [demo_backfill]
  rw [classify_eq 4175 demoRegistry demoHoldings _ _ (by decide)]
  rw [show demoTarget ++ [("MSFT", (0 : ℚ))] =
    [("AAPL", (0.50 : ℚ)), ("META", 0.30), ("GOOG", 0.20), ("MSFT", 0)] from rfl]
  simp only [List.filterMap_cons, List.filterMap_nil,
    demo_buySel_AAPL, demo_buySel_META, demo_buySel_GOOG, demo_buySel_MSFT,
    demo_sellSel_AAPL, demo_sellSel_META, demo_sellSel_GOOG, demo_sellSel_MSFT]
  rfl

/-! ### Helpers for the post-execution deviation bound -/

theorem mem_filterMap_buySel_symbol (total : ℚ) (reg : List (String × Stock))
    (hold : List (String × ℚ)) (l : List (String × ℚ)) (o : Order)
    (h : o ∈ l.filterMap (buySel total reg hold)) : o.symbol ∈ l.map Prod.fst := by
  obtain ⟨e, he, hsel⟩ := List.mem_filterMap.mp h
  rw [buySel_symbol total reg hold e o hsel]
  exact List.mem_map.mpr ⟨e, he, rfl⟩

theorem mem_filterMap_sellSel_symbol (total : ℚ) (reg : List (String × Stock))
    (hold : List (String × ℚ)) (l : List (String × ℚ)) (o : Order)
    (h : o ∈ l.filterMap (sellSel total reg hold)) : o.symbol ∈ l.map Prod.fst := by
  obtain ⟨e, he, hsel⟩ := List.mem_filterMap.mp h
  rw [sellSel_symbol total reg hold e o hsel]
  exact List.mem_map.mpr ⟨e, he, rfl⟩

theorem nodup_middle_not_mem {α β : Type} (u1 u2 : List (α × β)) (x : α × β)
    (h : ((u1 ++ x :: u2).map Prod.fst).Nodup) :
    x.1 ∉ u1.map Prod.fst ∧ x.1 ∉ u2.map Prod.fst := by
  rw [List.map_append, List.map_cons, List.nodup_append] at h
  obtain ⟨h1, h2, hdis⟩ := h
  rw [List.nodup_cons] at h2
  exact ⟨fun hc => hdis hc (List.mem_cons_self _ _), h2.1⟩

theorem max_zero_mul (a c : ℚ) (hc : 0 ≤ c) : max 0 a * c = max 0 (a * c) := by
  rcases le_or_lt a 0 with h | h
  · rw [max_eq_left h, max_eq_left (mul_nonpos_of_nonpos_of_nonneg h hc), zero_mul]
  · rw [max_eq_right h.le, max_eq_right (mul_nonneg h.le hc)]

/-- C6 (amended): after `create_rebalance_plan` followed immediately by
`execute_rebalance` with no price changes, every target symbol's holdings
value lands within 0.01 currency units of its planned target value
`T * fraction`, where `T` is the pre-execution total value — provided prices
are positive, holdings and target fractions are non-negative, and target
symbols are distinct.  (Relative to the post-execution total value the
deviation can exceed the dead-band and the second plan need not be empty:
see the counterexample.) -/
theorem c6_amended (p : Portfolio) (T : ℚ) (plan : Plan) (p2 p3 : Portfolio)
    (hT : get_total_value p = .ok T) (hT0 : T ≠ 0)
    (hpr : ∀ e ∈ p.stock_objects, 0 < e.2.current_price)
    (hh : ∀ e ∈ p.holdings, 0 ≤ e.2)
    (hf : ∀ e ∈ p.target_allocation, 0 ≤ e.2)
    (hnd : (p.target_allocation.map Prod.fst).Nodup)
    (hcr : create_rebalance_plan p = (.ok plan, p2))
    (hex : execute_rebalance p2 plan = (.ok (), p3)) :
    ∀ (s : String) (f : ℚ) (stock : Stock),
      alookup p2.target_allocation s = some f →
      alookup p.stock_objects s = some stock →
      |T * f - (alookup p3.holdings s).getD 0 * stock.current_price| ≤ 1/100 := by
  intro s f stock hsf hstock
  -- decompose the plan-creation call
  rw [create_rebalance_plan_eq p T hT hT0] at hcr
  rw [Prod.mk.injEq] at hcr
  obtain ⟨hcl, hp2⟩ := hcr
  set t2 := backfill p.stock_objects p.target_allocation with ht2
  have hp2t : p2.target_allocation = t2 := by rw [← hp2]
  have hp2r : p2.stock_objects = p.stock_objects := by rw [← hp2]
  have hp2h : p2.holdings = p.holdings := by rw [← hp2]
  have hnd2 : (t2.map Prod.fst).Nodup := backfill_nodup p.stock_objects p.target_allocation hnd
  obtain ⟨extra, hext, hextprop, _⟩ := backfill_spec p.stock_objects p.target_allocation
  have hf2 : ∀ e ∈ t2, 0 ≤ e.2 := by
    intro e he
    rw [ht2, hext] at he
    rcases List.mem_append.mp he with h1 | h1
    · exact hf e h1
    · rw [(hextprop e h1).1]
  have hTnn : 0 ≤ T :=
    total_value_aux_nonneg p.stock_objects
      (fun e he => (hpr e he).le) p.holdings 0 T hh le_rfl hT
  -- the plan is the filterMap of the selectors
  have hres2 : ∀ e ∈ t2, (alookup p.stock_objects e.1).isSome :=
    classify_ok_resolvable T p.stock_objects p.holdings t2 ⟨[], []⟩ plan hcl
  rw [classify_eq T p.stock_objects p.holdings t2 ⟨[], []⟩ hres2] at hcl
  have hplan : plan = ⟨t2.filterMap (buySel T p.stock_objects p.holdings),
      t2.filterMap (sellSel T p.stock_objects p.holdings)⟩ := by
    have := Except.ok.inj hcl.symm
    simpa using this
  -- the entry for s
  rw [hp2t] at hsf
  have hmem : (s, f) ∈ t2 := alookup_mem t2 s f hsf
  obtain ⟨u1, u2, hsplit⟩ := List.append_of_mem hmem
  have hnotmem := nodup_middle_not_mem u1 u2 (s, f) (by rw [← hsplit]; exact hnd2)
  have hprice : 0 < stock.current_price :=
    hpr (s, stock) (alookup_mem p.stock_objects s stock hstock)
  set cur0 := (alookup p.holdings s).getD 0 with hcur0
  set d := T * f - cur0 * stock.current_price with hd
  have hbuySel : buySel T p.stock_objects p.holdings (s, f) =
      if 1/100 < d then some ⟨s, round2 d⟩ else none := by
    rw [buySel, hstock]
  have hsellSel : sellSel T p.stock_objects p.holdings (s, f) =
      if 1/100 < d then none
      else if d < -(1/100) then some ⟨s, round2 |d|⟩ else none := by
    rw [sellSel, hstock]
  -- unique entry with key s
  have huniq : ∀ e ∈ t2, e.1 = s → e = (s, f) := by
    rintro ⟨a, b⟩ he h1
    dsimp only at h1
    subst h1
    have hb : alookup t2 a = some b := alookup_of_nodup_mem t2 a b hnd2 he
    rw [hsf] at hb
    rw [Option.some_inj] at hb
    rw [hb]
  -- execution decomposition: sells first
  rw [execute_rebalance] at hex
  rcases hrs : runOrders sellStep p2 plan.sell with ⟨r1, pm⟩
  rw [hrs] at hex
  cases r1 with
  | error e => simp at hex
  | ok u1' =>
    have hpm_reg : pm.stock_objects = p.stock_objects := by
      rw [(runOrders_fields sellStep sellStep_fields plan.sell p2 _ pm hrs).1, hp2r]
    rcases lt_trichotomy (1/100) d with hA | hA
    · -- buy branch
      have hbs : buySel T p.stock_objects p.holdings (s, f) = some ⟨s, round2 d⟩ := by
        rw [hbuySel, if_pos hA]
      have hss : sellSel T p.stock_objects p.holdings (s, f) = none := by
        rw [hsellSel, if_pos hA]
      -- no sell order mentions s
      have hsell_ne : ∀ o ∈ plan.sell, o.symbol ≠ s := by
        intro o ho hc
        rw [hplan] at ho
        dsimp only at ho
        obtain ⟨e, he, hsel⟩ := List.mem_filterMap.mp ho
        have hes : e.1 = s := by rw [← sellSel_symbol T p.stock_objects p.holdings e o hsel, hc]
        rw [huniq e he hes, hss] at hsel
        cases hsel
      have hpm_look : alookup pm.holdings s = alookup p.holdings s := by
        rw [runOrders_untouched sellStep s
          (fun p o p' hne h => sellStep_untouched p o p' s hne h)
          plan.sell p2 _ pm hsell_ne hrs, hp2h]
      -- split the buy list around the order for s
      have hbuy : plan.buy = u1.filterMap (buySel T p.stock_objects p.holdings)
          ++ (⟨s, round2 d⟩ : Order) :: u2.filterMap (buySel T p.stock_objects p.holdings) := by
        rw [hplan]
        dsimp only
        rw [hsplit, List.filterMap_append, List.filterMap_cons, hbs]
      rw [hbuy] at hex
      obtain ⟨q1, q2, hq1, hq2, hq3⟩ :=
        runOrders_ok_split buyStep _ _ _ pm p3 () hex
      have hq1_look : alookup q1.holdings s = alookup p.holdings s := by
        rw [runOrders_untouched buyStep s
          (fun p o p' hne h => buyStep_untouched p o p' s hne h)
          _ pm _ q1 ?_ hq1, hpm_look]
        intro o ho hc
        have := mem_filterMap_buySel_symbol T p.stock_objects p.holdings u1 o ho
        rw [hc] at this
        exact hnotmem.1 this
      have hq1_reg : q1.stock_objects = p.stock_objects := by
        rw [(runOrders_fields buyStep buyStep_fields _ pm _ q1 hq1).1, hpm_reg]
      have hstep := buyStep_pos_price q1 ⟨s, round2 d⟩ stock (by rw [hq1_reg]; exact hstock) hprice
      rw [hstep] at hq2
      rw [Except.ok.injEq] at hq2
      have hq2_look : alookup q2.holdings s =
          some ((alookup q1.holdings s).getD 0 + round2 d / stock.current_price) := by
        rw [← hq2]
        exact alookup_aset_self _ _ _
      have hp3_look : alookup p3.holdings s = alookup q2.holdings s := by
        rw [runOrders_untouched buyStep s
          (fun p o p' hne h => buyStep_untouched p o p' s hne h)
          _ q2 _ p3 ?_ hq3]
        intro o ho hc
        have := mem_filterMap_buySel_symbol T p.stock_objects p.holdings u2 o ho
        rw [hc] at this
        exact hnotmem.2 this
      rw [hp3_look, hq2_look, hq1_look]
      rw [Option.getD_some]
      have hc := abs_le.mp (round2_close d)
      have hexp : (cur0 + round2 d / stock.current_price) * stock.current_price
          = cur0 * stock.current_price + round2 d := by
        field_simp
      rw [hexp]
      rw [abs_le]
      constructor <;> [linarith [hc.1, hc.2]; linarith [hc.1, hc.2]]
    · have hnotbuy : ¬ (1/100 < d) := by
        rcases hA with h | h
        · rw [← h]
          exact lt_irrefl _
        · exact not_lt.mpr h.le
      have hbs : buySel T p.stock_objects p.holdings (s, f) = none := by
        rw [hbuySel, if_neg hnotbuy]
      have hbuy_ne : ∀ o ∈ plan.buy, o.symbol ≠ s := by
        intro o ho hc
        rw [hplan] at ho
        dsimp only at ho
        obtain ⟨e, he, hsel⟩ := List.mem_filterMap.mp ho
        have hes : e.1 = s := by rw [← buySel_symbol T p.stock_objects p.holdings e o hsel, hc]
        rw [huniq e he hes, hbs] at hsel
        cases hsel
      have hp3_pm : alookup p3.holdings s = alookup pm.holdings s := by
        rw [runOrders_untouched buyStep s
          (fun p o p' hne h => buyStep_untouched p o p' s hne h)
          plan.buy pm _ p3 hbuy_ne hex]
      rcases lt_or_le d (-(1/100)) with hB | hB
      · -- sell branch
        have hss : sellSel T p.stock_objects p.holdings (s, f) =
            some ⟨s, round2 |d|⟩ := by
          rw [hsellSel, if_neg hnotbuy, if_pos hB]
        have hsell : plan.sell = u1.filterMap (sellSel T p.stock_objects p.holdings)
            ++ (⟨s, round2 |d|⟩ : Order) :: u2.filterMap (sellSel T p.stock_objects p.holdings) := by
          rw [hplan]
          dsimp only
          rw [hsplit, List.filterMap_append, List.filterMap_cons, hss]
        rw [hsell] at hrs
        obtain ⟨q1, q2, hq1, hq2, hq3⟩ :=
          runOrders_ok_split sellStep _ _ _ p2 pm u1' hrs
        have hq1_look : alookup q1.holdings s = alookup p.holdings s := by
          rw [runOrders_untouched sellStep s
            (fun p o p' hne h => sellStep_untouched p o p' s hne h)
            _ p2 _ q1 ?_ hq1, hp2h]
          intro o ho hc
          have := mem_filterMap_sellSel_symbol T p.stock_objects p.holdings u1 o ho
          rw [hc] at this
          exact hnotmem.1 this
        have hq1_reg : q1.stock_objects = p.stock_objects := by
          rw [(runOrders_fields sellStep sellStep_fields _ p2 _ q1 hq1).1, hp2r]
        have hstep := sellStep_pos_price q1 ⟨s, round2 |d|⟩ stock
          (by rw [hq1_reg]; exact hstock) hprice
        rw [hstep] at hq2
        rw [Except.ok.injEq] at hq2
        have hq2_look : alookup q2.holdings s =
            some (max 0 ((alookup q1.holdings s).getD 0 - round2 |d| / stock.current_price)) := by
          rw [← hq2]
          exact alookup_aset_self _ _ _
        have hpm_look : alookup pm.holdings s = alookup q2.holdings s := by
          rw [runOrders_untouched sellStep s
            (fun p o p' hne h => sellStep_untouched p o p' s hne h)
            _ q2 _ pm ?_ hq3]
          intro o ho hc
          have := mem_filterMap_sellSel_symbol T p.stock_objects p.holdings u2 o ho
          rw [hc] at this
          exact hnotmem.2 this
        rw [hp3_pm, hpm_look, hq2_look, hq1_look, Option.getD_some]
        have habs : |d| = -d := abs_of_neg (by linarith)
        have hc := abs_le.mp (round2_close (-d))
        rw [habs]
        rw [max_zero_mul _ _ hprice.le]
        have hexp : (cur0 - round2 (-d) / stock.current_price) * stock.current_price
            = cur0 * stock.current_price - round2 (-d) := by
          field_simp
        rw [hexp]
        rcases le_or_lt 0 (cur0 * stock.current_price - round2 (-d)) with hcl | hcl
        · rw [max_eq_right hcl, abs_le]
          constructor <;> linarith [hc.1, hc.2]
        · rw [max_eq_left hcl.le]
          have hfs : 0 ≤ f := hf2 (s, f) hmem
          have hTf : 0 ≤ T * f := mul_nonneg hTnn hfs
          have hTf2 : T * f ≤ 1/200 := by linarith [hc.1, hc.2]
          rw [sub_zero, abs_le]
          constructor <;> linarith
      · -- dead-band branch: no order for s at all
        have hss : sellSel T p.stock_objects p.holdings (s, f) = none := by
          rw [hsellSel, if_neg hnotbuy, if_neg (not_lt.mpr hB)]
        have hsell_ne : ∀ o ∈ plan.sell, o.symbol ≠ s := by
          intro o ho hc
          rw [hplan] at ho
          dsimp only at ho
          obtain ⟨e, he, hsel⟩ := List.mem_filterMap.mp ho
          have hes : e.1 = s := by rw [← sellSel_symbol T p.stock_objects p.holdings e o hsel, hc]
          rw [huniq e he hes, hss] at hsel
          cases hsel
        have hpm_look : alookup pm.holdings s = alookup p.holdings s := by
          rw [runOrders_untouched sellStep s
            (fun p o p' hne h => sellStep_untouched p o p' s hne h)
            plan.sell p2 _ pm hsell_ne hrs, hp2h]
        rw [hp3_pm, hpm_look]
        have hub : d ≤ 1/100 := by
          rcases hA with h | h
          · exact h.ge
          · exact h.le
        rw [abs_le]
        constructor <;> linarith

/-- The engine state after the worked example's plan has been created (the
backfill has added `MSFT` at fraction `0`). -/
def demoP2 : Portfolio := ⟨demoRegistry, demoTarget ++ [("MSFT", 0)], demoHoldings⟩

/-- The engine state after the worked example's plan has been executed. -/
def demoP3 : Portfolio := ⟨demoRegistry, demoTarget ++ [("MSFT", 0)],
  [("AAPL", 167/12), ("GOOG", 167/27), ("MSFT", 0), ("META", 167/40)]⟩

theorem demo_exec : execute_rebalance demoP2 demoPlan = (.ok (), demoP3) := by
  simp [execute_rebalance, runOrders, sellStep, buyStep, alookup, aset,
    demoP2, demoP3, demoPlan, demoRegistry, demoHoldings, demoTarget, Stock.current_price]
  norm_num

/-! ### A drift example: rebalancing is not idempotent -/

/-- Four stocks, all priced 1. -/
def c6Registry : List (String × Stock) :=
  [("A", ⟨"A", 1⟩), ("B", ⟨"B", 1⟩), ("C", ⟨"C", 1⟩), ("D", ⟨"D", 1⟩)]

/-- Target allocation 97% / 1% / 1% / 1%. -/
def c6Target : List (String × ℚ) :=
  [("A", 0.97), ("B", 0.01), ("C", 0.01), ("D", 0.01)]

/-- Holdings worth 100 in total: `A` is under target by 0.027, the three
others are each over target by 0.009 (inside the dead-band). -/
def c6Holdings : List (String × ℚ) :=
  [("A", 96.973), ("B", 1.009), ("C", 1.009), ("D", 1.009)]

/-- The drift example's engine. -/
def c6Portfolio : Portfolio := ⟨c6Registry, c6Target, c6Holdings⟩

/-- The drift example's engine after executing its first rebalance plan. -/
def c6After : Portfolio := ⟨c6Registry, c6Target,
  [("A", 97.003), ("B", 1.009), ("C", 1.009), ("D", 1.009)]⟩

theorem c6_total_value : get_total_value c6Portfolio = .ok 100 := by
  simp [get_total_value, total_value_aux, alookup, Stock.current_price,
    c6Portfolio, c6Registry, c6Holdings]
  norm_num

theorem c6_buySel_A :
    buySel 100 c6Registry c6Holdings ("A", 0.97) = some ⟨"A", 0.03⟩ := by
  simp [buySel, alookup, c6Registry, c6Holdings, Stock.current_price]
  norm_num [round2, roundHalfEven]

theorem c6_buySel_B : buySel 100 c6Registry c6Holdings ("B", 0.01) = none := by
  simp [buySel, alookup, c6Registry, c6Holdings, Stock.current_price]
  norm_num

theorem c6_buySel_C : buySel 100 c6Registry c6Holdings ("C", 0.01) = none := by
  simp [buySel, alookup, c6Registry, c6Holdings, Stock.current_price]
  norm_num

theorem c6_buySel_D : buySel 100 c6Registry c6Holdings ("D", 0.01) = none := by
  simp [buySel, alookup, c6Registry, c6Holdings, Stock.current_price]
  norm_num

theorem c6_sellSel_A : sellSel 100 c6Registry c6Holdings ("A", 0.97) = none := by
  simp [sellSel, alookup, c6Registry, c6Holdings, Stock.current_price]
  norm_num

theorem c6_sellSel_B : sellSel 100 c6Registry c6Holdings ("B", 0.01) = none := by
  simp [sellSel, alookup, c6Registry, c6Holdings, Stock.current_price]
  norm_num

theorem c6_sellSel_C : sellSel 100 c6Registry c6Holdings ("C", 0.01) = none := by
  simp [sellSel, alookup, c6Registry, c6Holdings, Stock.current_price]
  norm_num

theorem c6_sellSel_D : sellSel 100 c6Registry c6Holdings ("D", 0.01) = none := by
  simp [sellSel, alookup, c6Registry, c6Holdings, Stock.current_price]
  norm_num

theorem c6_plan_eq : create_rebalance_plan c6Portfolio =
    (.ok ⟨[⟨"A", 0.03⟩], []⟩, c6Portfolio) := by
  rw [create_rebalance_plan_eq c6Portfolio 100 c6_total_value (by norm_num)]
  rw [show c6Portfolio.stock_objects = c6Registry from rfl,
      show c6Portfolio.holdings = c6Holdings from rfl,
      show c6Portfolio.target_allocation = c6Target from rfl]
  rw [backfill_complete_id c6Registry c6Target (by decide)]
  rw [classify_eq 100 c6Registry c6Holdings _ _ (by decide)]
  rw [show c6Target =
    [("A", (0.97 : ℚ)), ("B", 0.01), ("C", 0.01), ("D", 0.01)] from rfl]
  simp only [List.filterMap_cons, List.filterMap_nil,
    c6_buySel_A, c6_buySel_B, c6_buySel_C, c6_buySel_D,
    c6_sellSel_A, c6_sellSel_B, c6_sellSel_C, c6_sellSel_D]
  rfl

theorem c6_exec : execute_rebalance c6Portfolio ⟨[⟨"A", 0.03⟩], []⟩ = (.ok (), c6After) := by
  simp [execute_rebalance, runOrders, sellStep, buyStep, alookup, aset,
    c6Portfolio, c6After, c6Registry, c6Holdings, c6Target, Stock.current_price]
  norm_num

theorem c6_total_value_after : get_total_value c6After = .ok 100.03 := by
  simp [get_total_value, total_value_aux, alookup, Stock.current_price,
    c6After, c6Registry]
  norm_num

theorem c6_buySel_A_after :
    buySel 100.03 c6Registry c6After.holdings ("A", 0.97) = some ⟨"A", 0.03⟩ := by
  simp [buySel, alookup, c6Registry, c6After, Stock.current_price]
  norm_num [round2, roundHalfEven]

theorem c6_buySel_B_after : buySel 100.03 c6Registry c6After.holdings ("B", 0.01) = none := by
  simp [buySel, alookup, c6Registry, c6After, Stock.current_price]
  norm_num

theorem c6_buySel_C_after : buySel 100.03 c6Registry c6After.holdings ("C", 0.01) = none := by
  simp [buySel, alookup, c6Registry, c6After, Stock.current_price]
  norm_num

theorem c6_buySel_D_after : buySel 100.03 c6Registry c6After.holdings ("D", 0.01) = none := by
  simp [buySel, alookup, c6Registry, c6After, Stock.current_price]
  norm_num

theorem c6_sellSel_A_after : sellSel 100.03 c6Registry c6After.holdings ("A", 0.97) = none := by
  simp [sellSel, alookup, c6Registry, c6After, Stock.current_price]
  norm_num

theorem c6_sellSel_B_after : sellSel 100.03 c6Registry c6After.holdings ("B", 0.01) = none := by
  simp [sellSel, alookup, c6Registry, c6After, Stock.current_price]
  norm_num

theorem c6_sellSel_C_after : sellSel 100.03 c6Registry c6After.holdings ("C", 0.01) = none := by
  simp [sellSel, alookup, c6Registry, c6After, Stock.current_price]
  norm_num

theorem c6_sellSel_D_after : sellSel 100.03 c6Registry c6After.holdings ("D", 0.01) = none := by
  simp [sellSel, alookup, c6Registry, c6After, Stock.current_price]
  norm_num

theorem c6_plan_eq_after : create_rebalance_plan c6After =
    (.ok ⟨[⟨"A", 0.03⟩], []⟩, c6After) := by
  rw [create_rebalance_plan_eq c6After 100.03 c6_total_value_after (by norm_num)]
  rw [show c6After.stock_objects = c6Registry from rfl,
      show c6After.target_allocation = c6Target from rfl]
  rw [backfill_complete_id c6Registry c6Target (by decide)]
  rw [classify_eq 100.03 c6Registry c6After.holdings _ _ (by decide)]
  rw [show c6Target =
    [("A", (0.97 : ℚ)), ("B", 0.01), ("C", 0.01), ("D", 0.01)] from rfl]
  simp only [List.filterMap_cons, List.filterMap_nil,
    c6_buySel_A_after, c6_buySel_B_after, c6_buySel_C_after, c6_buySel_D_after,
    c6_sellSel_A_after, c6_sellSel_B_after, c6_sellSel_C_after, c6_sellSel_D_after]
  rfl

/-! ### Claim theorems -/

/-- C1: for the registry {AAPL:150, META:300, GOOG:135, MSFT:250}, holdings
{AAPL:10, GOOG:5, MSFT:8} and target {AAPL:0.50, META:0.30, GOOG:0.20},
construction succeeds, `get_total_value` returns 4175, and
`create_rebalance_plan` returns exactly the plan with buys
[(AAPL, 587.50), (META, 1252.50), (GOOG, 160.00)] and sells
[(MSFT, 2000.00)], in those orders. -/
theorem c1_worked_example :
    Portfolio.init demoStocks demoTarget (some demoHoldings) = .ok demoPortfolio
    ∧ get_total_value demoPortfolio = .ok 4175
    ∧ (create_rebalance_plan demoPortfolio).1 =
        .ok ⟨[⟨"AAPL", 587.50⟩, ⟨"META", 1252.50⟩, ⟨"GOOG", 160.00⟩],
             [⟨"MSFT", 2000.00⟩]⟩ :=
  ⟨demo_init, demo_total_value, by rw [demo_plan_eq]; rfl⟩

/-- C3 counterexample: the single-entry target allocation summing to
`1 + 10⁻¹⁰` is within the claimed `10⁻⁹` tolerance of 1.0, yet construction
fails with the invalid-allocation error, because the source checks
`sum(...) == 1.0` exactly. -/
theorem c3_counterexample :
    |((1 : ℚ) + 1/10000000000) - 1| ≤ 1/1000000000
    ∧ Portfolio.init [⟨"AAPL", 150⟩] [("AAPL", 1 + 1/10000000000)] none =
        .error Err.invalidAllocation := by
  constructor
  · rw [show ((1 : ℚ) + 1/10000000000) - 1 = 1/10000000000 from by ring,
      abs_of_pos (by norm_num)]
    norm_num
  · rw [Portfolio.init, if_pos (by norm_num)]

/-- C3 (amended): construction succeeds exactly when the target fractions sum
to exactly 1.0 (and every target symbol is a tradable stock); any other sum
fails with the invalid-allocation error — there is no 1e-9 tolerance. -/
theorem c3_amended (stocks : List Stock) (target : List (String × ℚ))
    (initial : Option (List (String × ℚ))) :
    ((target.map Prod.snd).sum ≠ 1 →
      Portfolio.init stocks target initial = .error Err.invalidAllocation)
    ∧ ((target.map Prod.snd).sum = 1 →
        (target.all (fun e => (alookup (build_registry stocks) e.1).isSome)) = true →
        Portfolio.init stocks target initial =
          .ok ⟨build_registry stocks, target, initial.getD []⟩)
    ∧ ((target.map Prod.snd).sum = 1 →
        (target.all (fun e => (alookup (build_registry stocks) e.1).isSome)) = false →
        Portfolio.init stocks target initial = .error Err.unknownSymbol) := by
  refine ⟨fun h => ?_, fun h ha => ?_, fun h ha => ?_⟩
  · rw [Portfolio.init, if_pos h]
  · rw [Portfolio.init, if_neg (by rw [not_not]; exact h)]
    dsimp only
    rw [if_pos ha]
  · rw [Portfolio.init, if_neg (by rw [not_not]; exact h)]
    dsimp only
    rw [if_neg (by rw [ha]; exact Bool.false_ne_true)]

/-- C3 witness: the worked example's allocation sums to exactly 1 and its
construction succeeds. -/
theorem c3_witness :
    Portfolio.init demoStocks demoTarget (some demoHoldings) =
      .ok ⟨build_registry demoStocks, demoTarget, demoHoldings⟩ :=
  (c3_amended demoStocks demoTarget (some demoHoldings)).2.1
    (by norm_num [demoTarget]) (by decide)

/-- C4: on an engine whose total value is non-zero, `create_rebalance_plan`
appends an entry with fraction 0.0 for every registry symbol missing from the
stored target allocation, leaves the pre-existing entries and their order
unchanged (the old map is a prefix of the new one), leaves holdings and
registry untouched, the mutation persists in the returned engine state, and a
second call leaves the target allocation unchanged (idempotence). -/
theorem c4_backfill_persists (p : Portfolio) (T : ℚ)
    (hT : get_total_value p = .ok T) (hT0 : T ≠ 0) :
    ∃ extra,
      (create_rebalance_plan p).2.target_allocation = p.target_allocation ++ extra
      ∧ (∀ e ∈ extra, e.2 = 0 ∧ alookup p.target_allocation e.1 = none
          ∧ e.1 ∈ p.stock_objects.map Prod.fst)
      ∧ (∀ e ∈ p.stock_objects,
          (alookup (create_rebalance_plan p).2.target_allocation e.1).isSome)
      ∧ (∀ e ∈ p.stock_objects, alookup p.target_allocation e.1 = none →
          alookup (create_rebalance_plan p).2.target_allocation e.1 = some 0)
      ∧ (create_rebalance_plan p).2.holdings = p.holdings
      ∧ (create_rebalance_plan p).2.stock_objects = p.stock_objects
      ∧ (create_rebalance_plan ((create_rebalance_plan p).2)).2.target_allocation
          = (create_rebalance_plan p).2.target_allocation := by
  have hcr := create_rebalance_plan_eq p T hT hT0
  obtain ⟨extra, hext, hprop, hcomplete⟩ := backfill_spec p.stock_objects p.target_allocation
  refine ⟨extra, ?_, hprop, ?_, ?_, ?_, ?_, ?_⟩
  · rw [hcr]
    exact hext
  · intro e he
    rw [hcr]
    exact hcomplete e he
  · intro e he hnone
    rw [hcr]
    dsimp only
    rw [hext, alookup_append_right _ _ _ hnone]
    have hs := hcomplete e he
    rw [hext, alookup_append_right _ _ _ hnone] at hs
    obtain ⟨v, hv⟩ := Option.isSome_iff_exists.mp hs
    have hv0 := (hprop (e.1, v) (alookup_mem extra e.1 v hv)).1
    dsimp only at hv0
    rw [hv, hv0]
  · rw [hcr]
  · rw [hcr]
  · rw [hcr]
    dsimp only
    have hT2 : get_total_value
        (⟨p.stock_objects, backfill p.stock_objects p.target_allocation,
          p.holdings⟩ : Portfolio) = .ok T := hT
    rw [create_rebalance_plan_eq _ T hT2 hT0]
    dsimp only
    exact backfill_complete_id _ _ hcomplete

/-- C4 witness: in the worked example the call appends `MSFT` with fraction 0
to the stored target allocation. -/
theorem c4_witness :
    alookup (create_rebalance_plan demoPortfolio).2.target_allocation "MSFT" =
      some 0 := by
  obtain ⟨extra, h1, h2, h3, h4, h5, h6, h7⟩ :=
    c4_backfill_persists demoPortfolio 4175 demo_total_value (by norm_num)
  exact h4 ("MSFT", ⟨"MSFT", 250⟩) (by simp [demoPortfolio, demoRegistry])
    (by simp [demoPortfolio, demoTarget, alookup])

/-- C5 counterexample: depositing a negative share count of a symbol that is
not in the registry raises the unknown-symbol error — it is not the silent
no-op the claim promises for every `shares ≤ 0` deposit, because the source
checks the symbol before looking at the share count. -/
theorem c5_counterexample :
    add_position c6Portfolio "ZZZ" (-1) = (.error Err.unknownSymbol, c6Portfolio) := by
  rw [add_position, if_neg]
  rw [show alookup c6Portfolio.stock_objects "ZZZ" = none from by decide]
  simp

/-- C5 (amended): the unknown-symbol check takes precedence: depositing under
a symbol absent from the registry fails with the unknown-symbol error and
leaves the engine unchanged, whatever the sign of the share count; for a
registry symbol, a deposit of `shares ≤ 0` is a silent no-op; for a registry
symbol and `shares > 0` the holdings entry grows by `shares` (created if
absent) and nothing else changes. -/
theorem c5_amended (p : Portfolio) (s : String) (sh : ℚ) :
    (alookup p.stock_objects s = none →
      add_position p s sh = (.error Err.unknownSymbol, p))
    ∧ ((alookup p.stock_objects s).isSome → sh ≤ 0 →
        add_position p s sh = (.ok (), p))
    ∧ ((alookup p.stock_objects s).isSome → 0 < sh →
        (add_position p s sh).1 = .ok ()
        ∧ alookup (add_position p s sh).2.holdings s =
            some ((alookup p.holdings s).getD 0 + sh)
        ∧ (∀ s', s' ≠ s → alookup (add_position p s sh).2.holdings s' =
            alookup p.holdings s')
        ∧ (add_position p s sh).2.stock_objects = p.stock_objects
        ∧ (add_position p s sh).2.target_allocation = p.target_allocation) := by
  refine ⟨fun h => ?_, fun h hsh => ?_, fun h hsh => ?_⟩
  · rw [add_position, if_neg (by rw [h]; simp)]
  · rw [add_position, if_pos h, if_neg (not_lt.mpr hsh)]
  · rw [add_position, if_pos h, if_pos hsh]
    exact ⟨rfl, alookup_aset_self _ _ _,
      fun s' hs' => alookup_aset_ne _ _ _ _ hs', rfl, rfl⟩

/-- C5 witness: depositing 5 AAPL shares into the worked example grows the
AAPL holdings entry from 10 to 15. -/
theorem c5_witness :
    alookup (add_position demoPortfolio "AAPL" 5).2.holdings "AAPL" = some 15 := by
  have h := ((c5_amended demoPortfolio "AAPL" 5).2.2 (by decide) (by norm_num)).2.1
  rw [h]
  simp [demoPortfolio, demoHoldings, alookup]
  norm_num

/-- C10: construction does not validate the symbols of the initial holdings:
with holdings containing the unknown symbol `ZZZ` construction succeeds, and
the later `get_total_value` and `create_rebalance_plan` calls fail with the
`KeyError` of the unguarded registry lookup instead. -/
theorem c10_unvalidated_holdings :
    Portfolio.init [⟨"AAPL", 150⟩] [("AAPL", 1)] (some [("ZZZ", 5)]) =
      .ok ⟨[("AAPL", ⟨"AAPL", 150⟩)], [("AAPL", 1)], [("ZZZ", 5)]⟩
    ∧ get_total_value ⟨[("AAPL", ⟨"AAPL", 150⟩)], [("AAPL", 1)], [("ZZZ", 5)]⟩ =
        .error Err.keyError
    ∧ (create_rebalance_plan
        ⟨[("AAPL", ⟨"AAPL", 150⟩)], [("AAPL", 1)], [("ZZZ", 5)]⟩).1 =
        .error Err.keyError := by
  refine ⟨?_, ?_, ?_⟩
  · rw [Portfolio.init, if_neg (by norm_num)]
    dsimp only
    rw [if_pos (by decide)]
    rfl
  · simp [get_total_value, total_value_aux, alookup]
  · simp [create_rebalance_plan, get_total_value, total_value_aux, alookup]

/-- A registry with a zero-priced stock `A` and a normally priced stock `B`,
holding five shares of `A` and three of `B` while targeting only `B`. -/
def c8Portfolio : Portfolio :=
  ⟨[("A", ⟨"A", 0⟩), ("B", ⟨"B", 1⟩)], [("B", 1)], [("A", 5), ("B", 3)]⟩

/-- C2: execution applies the whole sell loop before any buy order (running
the full plan equals running the sell-only plan and then, on success, the
buy-only plan); a sell order on a positively priced symbol clamps that
holdings entry at `max 0 (held - amount/price)`, which is never negative,
leaving every other symbol and the rest of the engine unchanged; a buy order
on a positively priced symbol adds `amount/price` shares to that entry; and
an order whose symbol has price ≤ 0 leaves the engine entirely unchanged. -/
theorem c2_execute_semantics :
    (∀ (p : Portfolio) (plan : Plan),
      execute_rebalance p plan =
        match execute_rebalance p ⟨[], plan.sell⟩ with
        | (.ok _, p1) => execute_rebalance p1 ⟨plan.buy, []⟩
        | (.error e, p1) => (.error e, p1))
    ∧ (∀ (p : Portfolio) (o : Order) (stock : Stock),
        alookup p.stock_objects o.symbol = some stock →
        0 < stock.current_price →
        ∃ p', sellStep p o = .ok p'
          ∧ alookup p'.holdings o.symbol =
              some (max 0 ((alookup p.holdings o.symbol).getD 0 -
                o.amount_in_dollars / stock.current_price))
          ∧ 0 ≤ max 0 ((alookup p.holdings o.symbol).getD 0 -
                o.amount_in_dollars / stock.current_price)
          ∧ (∀ s, s ≠ o.symbol → alookup p'.holdings s = alookup p.holdings s)
          ∧ p'.stock_objects = p.stock_objects
          ∧ p'.target_allocation = p.target_allocation)
    ∧ (∀ (p : Portfolio) (o : Order) (stock : Stock),
        alookup p.stock_objects o.symbol = some stock →
        0 < stock.current_price →
        ∃ p', buyStep p o = .ok p'
          ∧ alookup p'.holdings o.symbol =
              some ((alookup p.holdings o.symbol).getD 0 +
                o.amount_in_dollars / stock.current_price)
          ∧ (∀ s, s ≠ o.symbol → alookup p'.holdings s = alookup p.holdings s)
          ∧ p'.stock_objects = p.stock_objects
          ∧ p'.target_allocation = p.target_allocation)
    ∧ (∀ (p : Portfolio) (o : Order) (stock : Stock),
        alookup p.stock_objects o.symbol = some stock →
        stock.current_price ≤ 0 →
        sellStep p o = .ok p ∧ buyStep p o = .ok p) := by
  refine ⟨?_, ?_, ?_, ?_⟩
  · intro p plan
    have hsellonly : execute_rebalance p ⟨[], plan.sell⟩ =
        runOrders sellStep p plan.sell := by
      rw [execute_rebalance]
      dsimp only
      rcases hr : runOrders sellStep p plan.sell with ⟨r1, p1⟩
      cases r1 with
      | error e => rfl
      | ok u =>
        cases u
        simp only [runOrders]
    have hbuyonly : ∀ q, execute_rebalance q ⟨plan.buy, []⟩ =
        runOrders buyStep q plan.buy := by
      intro q
      rw [execute_rebalance]
      dsimp only
      simp only [runOrders]
    rw [execute_rebalance, hsellonly]
    rcases hr : runOrders sellStep p plan.sell with ⟨r1, p1⟩
    cases r1 with
    | error e => rfl
    | ok u => exact (hbuyonly p1).symm
  · intro p o stock hs hp
    refine ⟨_, sellStep_pos_price p o stock hs hp, ?_, le_max_left 0 _, ?_, rfl, rfl⟩
    · exact alookup_aset_self _ _ _
    · intro s hs'
      exact alookup_aset_ne _ _ _ _ hs'
  · intro p o stock hs hp
    refine ⟨_, buyStep_pos_price p o stock hs hp, ?_, ?_, rfl, rfl⟩
    · exact alookup_aset_self _ _ _
    · intro s hs'
      exact alookup_aset_ne _ _ _ _ hs'
  · intro p o stock hs hp
    exact ⟨sellStep_nonpos_price p o stock hs hp, buyStep_nonpos_price p o stock hs hp⟩

/-- C2 witness: running the worked example's plan equals running its sells and
then its buys, and orders on the zero-priced stock `A` change nothing. -/
theorem c2_witness :
    (execute_rebalance demoP2 demoPlan =
      match execute_rebalance demoP2 ⟨[], demoPlan.sell⟩ with
      | (.ok _, p1) => execute_rebalance p1 ⟨demoPlan.buy, []⟩
      | (.error e, p1) => (.error e, p1))
    ∧ sellStep c8Portfolio ⟨"A", 5⟩ = .ok c8Portfolio
    ∧ buyStep c8Portfolio ⟨"A", 5⟩ = .ok c8Portfolio :=
  ⟨c2_execute_semantics.1 demoP2 demoPlan,
   (c2_execute_semantics.2.2.2 c8Portfolio ⟨"A", 5⟩ ⟨"A", 0⟩
      (by simp [c8Portfolio, alookup]) le_rfl).1,
   (c2_execute_semantics.2.2.2 c8Portfolio ⟨"A", 5⟩ ⟨"A", 0⟩
      (by simp [c8Portfolio, alookup]) le_rfl).2⟩

/-- C6 counterexample: an engine with all-positive prices (all prices are 1)
where `create_rebalance_plan` followed immediately by `execute_rebalance`
leaves symbol `A` 0.0261 currency units away from its share of the updated
total value — outside the 0.01 dead-band — so the immediately following
second `create_rebalance_plan` returns another non-empty plan (a buy of
$0.03, three times the dead-band) instead of an empty or negligible one. -/
theorem c6_counterexample :
    get_total_value c6Portfolio = .ok 100
    ∧ create_rebalance_plan c6Portfolio = (.ok ⟨[⟨"A", 0.03⟩], []⟩, c6Portfolio)
    ∧ execute_rebalance c6Portfolio ⟨[⟨"A", 0.03⟩], []⟩ = (.ok (), c6After)
    ∧ get_total_value c6After = .ok 100.03
    ∧ alookup c6After.target_allocation "A" = some 0.97
    ∧ alookup c6After.holdings "A" = some 97.003
    ∧ ¬ |(100.03 : ℚ) * 0.97 - 97.003 * 1| ≤ 1/100
    ∧ (create_rebalance_plan c6After).1 = .ok ⟨[⟨"A", 0.03⟩], []⟩
    ∧ (create_rebalance_plan c6After).1 ≠ .ok ⟨[], []⟩ := by
  refine ⟨c6_total_value, c6_plan_eq, c6_exec, c6_total_value_after, ?_, ?_, ?_, ?_, ?_⟩
  · simp [c6After, c6Target, alookup]
  · simp [c6After, alookup]
  · rw [not_le, abs_of_pos (show (0:ℚ) < 100.03 * 0.97 - 97.003 * 1 from by norm_num)]
    norm_num
  · rw [c6_plan_eq_after]
  · rw [c6_plan_eq_after]
    intro hc
    simp at hc

/-- C6 witness for the amended bound: in the worked example, `AAPL` ends
exactly on its planned target value, within the 0.01 bound. -/
theorem c6_witness :
    |4175 * (0.50 : ℚ) - (alookup demoP3.holdings "AAPL").getD 0 *
      (⟨"AAPL", 150⟩ : Stock).current_price| ≤ 1/100 :=
  c6_amended demoPortfolio 4175 demoPlan demoP2 demoP3
    demo_total_value (by norm_num)
    (by
      intro e he
      simp [demoPortfolio, demoRegistry] at he
      rcases he with h | h | h | h <;> rw [h] <;> norm_num [Stock.current_price])
    (by
      intro e he
      simp [demoPortfolio, demoHoldings] at he
      rcases he with h | h | h <;> rw [h] <;> norm_num)
    (by
      intro e he
      simp [demoPortfolio, demoTarget] at he
      rcases he with h | h | h <;> rw [h] <;> norm_num)
    (by decide)
    demo_plan_eq demo_exec
    "AAPL" 0.50 ⟨"AAPL", 150⟩
    (by simp [demoP2, demoTarget, alookup])
    (by simp [demoPortfolio, demoRegistry, alookup])

/-- Plans that some engine state produced via `create_rebalance_plan`
(executions may use a stale plan from an older state). -/
def PlanFromEngine (pl : Plan) : Prop :=
  ∃ q : Portfolio, (create_rebalance_plan q).1 = .ok pl

/-- Engine states reachable from `p` by deposits, plan creations, and
executions of engine-produced (possibly stale) plans. -/
inductive Reachable (p : Portfolio) : Portfolio → Prop where
  | refl : Reachable p p
  | deposit (q : Portfolio) (s : String) (sh : ℚ) (h : Reachable p q) :
      Reachable p (add_position q s sh).2
  | plan (q : Portfolio) (h : Reachable p q) :
      Reachable p (create_rebalance_plan q).2
  | exec (q q' : Portfolio) (pl : Plan) (r : Except Err Unit)
      (h : Reachable p q) (hpl : PlanFromEngine pl)
      (hex : execute_rebalance q pl = (r, q')) : Reachable p q'

theorem init_holdings (stocks : List Stock) (target : List (String × ℚ))
    (initial : Option (List (String × ℚ))) (p : Portfolio)
    (h : Portfolio.init stocks target initial = .ok p) :
    p.holdings = initial.getD [] := by
  rw [Portfolio.init] at h
  by_cases h1 : ¬ (target.map Prod.snd).sum = 1
  · rw [if_pos h1] at h
    cases h
  · rw [if_neg h1] at h
    dsimp only at h
    by_cases h2 : (target.all fun e => (alookup (build_registry stocks) e.1).isSome) = true
    · rw [if_pos h2] at h
      injection h with h3
      rw [← h3]
    · rw [if_neg h2] at h
      cases h

/-- C7: an engine constructed from non-negative initial holdings keeps every
holdings entry non-negative across every sequence of deposits, plan
creations, and executions of engine-produced plans. -/
theorem c7_holdings_nonneg (stocks : List Stock) (target : List (String × ℚ))
    (initial : Option (List (String × ℚ))) (p q : Portfolio)
    (hinit : Portfolio.init stocks target initial = .ok p)
    (h0 : ∀ e ∈ initial.getD [], 0 ≤ e.2)
    (hr : Reachable p q) : HoldingsNonneg q := by
  have hp : HoldingsNonneg p := by
    intro e he
    rw [init_holdings stocks target initial p hinit] at he
    exact h0 e he
  induction hr with
  | refl => exact hp
  | deposit q s sh h ih => exact add_position_nonneg q s sh ih
  | plan q h ih =>
    intro e he
    rw [(create_rebalance_plan_holdings q).1] at he
    exact ih e he
  | exec q q' pl r h hpl hex ih =>
    obtain ⟨q0, hq0⟩ := hpl
    have h2 : create_rebalance_plan q0 = (.ok pl, (create_rebalance_plan q0).2) := by
      rw [← hq0]
    obtain ⟨hbpos, hspos⟩ := create_plan_amounts_pos q0 pl _ h2
    rw [execute_rebalance] at hex
    rcases hrs : runOrders sellStep q pl.sell with ⟨r1, pm⟩
    rw [hrs] at hex
    have hpm := runOrders_sell_nonneg pl.sell q r1 pm hrs ih
    cases r1 with
    | error e =>
      dsimp only at hex
      rw [Prod.mk.injEq] at hex
      rw [← hex.2]
      exact hpm
    | ok u =>
      dsimp only at hex
      exact runOrders_buy_nonneg pl.buy pm r q' (fun o ho => (hbpos o ho).le) hex hpm

/-- C7 witness: the worked example's engine has non-negative holdings, and so
does the state reached by creating and executing its rebalance plan. -/
theorem c7_witness : HoldingsNonneg demoP3 :=
  c7_holdings_nonneg demoStocks demoTarget (some demoHoldings)
    demoPortfolio demoP3 demo_init
    (by
      intro e he
      simp [demoHoldings] at he
      rcases he with h | h | h <;> rw [h] <;> norm_num)
    (Reachable.exec demoP2 demoP3 demoPlan (.ok ())
      (by
        have h : (create_rebalance_plan demoPortfolio).2 = demoP2 := by
          rw [demo_plan_eq]
          rfl
        exact h ▸ Reachable.plan demoPortfolio Reachable.refl)
      ⟨demoPortfolio, by rw [demo_plan_eq]⟩ demo_exec)

/-! ### Allocation-report lemmas -/

/-- Specification of one report decision: the record `get_current_allocation`
appends for a holdings entry, if any. -/
def allocSel (reg : List (String × Stock)) (total : ℚ) (e : String × ℚ) :
    Option AllocEntry :=
  match alookup reg e.1 with
  | none => none
  | some stock =>
    let value := e.2 * stock.current_price
    let pct := if 0 < total then value / total * 100 else 0
    if 0 < pct then some ⟨e.1, e.2, value, pct⟩ else none

theorem allocSel_symbol (reg : List (String × Stock)) (total : ℚ)
    (e : String × ℚ) (a : AllocEntry) (h : allocSel reg total e = some a) :
    a.symbol = e.1 := by
  rw [allocSel] at h
  cases hs : alookup reg e.1 with
  | none => rw [hs] at h; cases h
  | some stock =>
    rw [hs] at h
    simp only at h
    split_ifs at h <;>
      exact congrArg AllocEntry.symbol (Option.some_injective _ h) |>.symm ▸ rfl

theorem alloc_aux_eq (reg : List (String × Stock)) (total : ℚ) :
    ∀ (l : List (String × ℚ)) (acc : List AllocEntry),
      (∀ e ∈ l, (alookup reg e.1).isSome) →
      alloc_aux reg total l acc = .ok (acc ++ l.filterMap (allocSel reg total)) := by
  intro l
  induction l with
  | nil =>
    intro acc _
    simp [alloc_aux]
  | cons e rest ih =>
    intro acc h
    obtain ⟨stock, hs⟩ := Option.isSome_iff_exists.mp (h e (List.mem_cons_self e rest))
    have hrest : ∀ x ∈ rest, (alookup reg x.1).isSome :=
      fun x hx => h x (List.mem_cons_of_mem e hx)
    rw [alloc_aux, hs]
    simp only [List.filterMap_cons, allocSel, hs]
    by_cases h1 : 0 < (if 0 < total then e.2 * stock.current_price / total * 100 else 0)
    · rw [if_pos h1, if_pos h1, ih _ hrest]
      simp
    · rw [if_neg h1, if_neg h1, ih _ hrest]

theorem insertSorted_perm (x : String × ℚ) :
    ∀ l : List (String × ℚ), (insertSorted x l).Perm (x :: l) := by
  intro l
  induction l with
  | nil => rfl
  | cons y ys ih =>
    rw [insertSorted]
    by_cases h : x.1 ≤ y.1
    · rw [if_pos h]
    · rw [if_neg h]
      exact (ih.cons y).trans (List.Perm.swap x y ys)

theorem sortByKey_perm (l : List (String × ℚ)) : (sortByKey l).Perm l := by
  induction l with
  | nil => rfl
  | cons e rest ih =>
    rw [sortByKey, List.foldr_cons]
    exact (insertSorted_perm e _).trans (ih.cons e)

theorem mem_insertSorted (x y : String × ℚ) (l : List (String × ℚ))
    (h : y ∈ insertSorted x l) : y = x ∨ y ∈ l := by
  have := (insertSorted_perm x l).mem_iff.mp h
  rwa [List.mem_cons] at this

theorem insertSorted_pairwise (x : String × ℚ) :
    ∀ l : List (String × ℚ), l.Pairwise (fun a b => a.1 ≤ b.1) →
      (insertSorted x l).Pairwise (fun a b => a.1 ≤ b.1) := by
  intro l
  induction l with
  | nil =>
    intro _
    simp [insertSorted]
  | cons y ys ih =>
    intro h
    rw [List.pairwise_cons] at h
    rw [insertSorted]
    by_cases hxy : x.1 ≤ y.1
    · rw [if_pos hxy]
      rw [List.pairwise_cons]
      constructor
      · intro z hz
        rcases List.mem_cons.mp hz with h1 | h1
        · rw [h1]
          exact hxy
        · exact hxy.trans (h.1 z h1)
      · rw [List.pairwise_cons]
        exact h
    · rw [if_neg hxy]
      rw [List.pairwise_cons]
      constructor
      · intro z hz
        rcases mem_insertSorted x z ys hz with h1 | h1
        · rw [h1]
          exact le_of_not_le hxy
        · exact h.1 z h1
      · exact ih h.2

theorem sortByKey_pairwise (l : List (String × ℚ)) :
    (sortByKey l).Pairwise (fun a b => a.1 ≤ b.1) := by
  induction l with
  | nil => simp [sortByKey]
  | cons e rest ih =>
    rw [sortByKey, List.foldr_cons]
    exact insertSorted_pairwise e _ ih

theorem pairwise_filterMap_allocSel (reg : List (String × Stock)) (total : ℚ) :
    ∀ l : List (String × ℚ), l.Pairwise (fun a b => a.1 ≤ b.1) →
      (l.filterMap (allocSel reg total)).Pairwise (fun a b => a.symbol ≤ b.symbol) := by
  intro l
  induction l with
  | nil =>
    intro _
    simp
  | cons e rest ih =>
    intro h
    rw [List.pairwise_cons] at h
    rw [List.filterMap_cons]
    cases hs : allocSel reg total e with
    | none => exact ih h.2
    | some a =>
      rw [List.pairwise_cons]
      constructor
      · intro b hb
        obtain ⟨e', he', hsel⟩ := List.mem_filterMap.mp hb
        rw [allocSel_symbol reg total e a hs, allocSel_symbol reg total e' b hsel]
        exact h.1 e' he'
      · exact ih h.2

theorem pct_pos_iff (v T : ℚ) (hT : 0 < T) : 0 < v / T * 100 ↔ 0 < v := by
  constructor
  · intro h
    by_contra hc
    rw [not_lt] at hc
    have h1 : v / T ≤ 0 := div_nonpos_of_nonpos_of_nonneg hc hT.le
    nlinarith
  · intro h
    have h1 : 0 < v / T := div_pos h hT
    nlinarith

theorem c8_total_value : get_total_value c8Portfolio = .ok 3 := by
  simp [get_total_value, total_value_aux, alookup, Stock.current_price, c8Portfolio]

theorem c8_sort : sortByKey c8Portfolio.holdings = [("A", 5), ("B", 3)] := by
  have hAB : ("A" : String) ≤ "B" := by simp; decide
  simp [sortByKey, insertSorted, c8Portfolio, hAB]

theorem c8_allocSel_A : allocSel c8Portfolio.stock_objects 3 ("A", 5) = none := by
  simp [allocSel, alookup, c8Portfolio, Stock.current_price]

theorem c8_allocSel_B :
    allocSel c8Portfolio.stock_objects 3 ("B", 3) = some ⟨"B", 3, 3, 100⟩ := by
  simp [allocSel, alookup, c8Portfolio, Stock.current_price]

/-- C8 counterexample: symbol `A` is held with 5 shares (share count > 0) at
price 0, yet the allocation report contains only the entry for `B`: the
source filters on `percentage > 0`, not on `shares > 0`, so a held zero-price
symbol is omitted instead of appearing with value 0 as the claim states. -/
theorem c8_counterexample :
    alookup c8Portfolio.holdings "A" = some 5
    ∧ (0 : ℚ) < 5
    ∧ alookup c8Portfolio.stock_objects "A" = some ⟨"A", 0⟩
    ∧ get_current_allocation c8Portfolio = .ok [⟨"B", 3, 3, 100⟩] := by
  refine ⟨by simp [c8Portfolio, alookup], by norm_num, by simp [c8Portfolio, alookup], ?_⟩
  rw [get_current_allocation, c8_total_value]
  dsimp only
  rw [if_neg (by norm_num)]
  rw [alloc_aux_eq c8Portfolio.stock_objects 3 _ [] ?_]
  · rw [c8_sort]
    rw [List.filterMap_cons, c8_allocSel_A, List.filterMap_cons, c8_allocSel_B,
      List.filterMap_nil, List.nil_append]
  · intro e he
    rw [c8_sort] at he
    rcases List.mem_cons.mp he with h | h
    · rw [h]
      decide
    · rw [List.mem_singleton.mp h]
      decide

/-- C8 (amended): when the total value is 0 the report is the empty
placeholder; when the total value is positive the report is sorted by symbol
and lists exactly the held symbols whose value `shares × price` is strictly
positive — a held symbol with price 0 (or share count 0) is omitted, not
shown with value 0.  Each shown record carries the entry's share count, its
value, and its percentage of the total. -/
theorem c8_amended (p : Portfolio) (T : ℚ)
    (hT : get_total_value p = .ok T)
    (hres : ∀ e ∈ p.holdings, (alookup p.stock_objects e.1).isSome)
    (hnd : (p.holdings.map Prod.fst).Nodup) :
    ∃ l, get_current_allocation p = .ok l
      ∧ (¬ 0 < T → l = [])
      ∧ (0 < T →
          l.Pairwise (fun a b => a.symbol ≤ b.symbol)
          ∧ (∀ a ∈ l, ∃ stock, alookup p.stock_objects a.symbol = some stock
              ∧ (a.symbol, a.shares) ∈ p.holdings
              ∧ a.value = a.shares * stock.current_price
              ∧ a.percentage = a.value / T * 100
              ∧ 0 < a.value)
          ∧ (∀ s sh stock, (s, sh) ∈ p.holdings →
              alookup p.stock_objects s = some stock →
              ((∃ a ∈ l, a.symbol = s) ↔ 0 < sh * stock.current_price))) := by
  by_cases hT0 : T = 0
  · refine ⟨[], ?_, fun _ => rfl, fun h0 => absurd h0 (by rw [hT0]; exact lt_irrefl 0)⟩
    rw [get_current_allocation, hT]
    dsimp only
    rw [if_pos hT0]
  · have hres' : ∀ e ∈ sortByKey p.holdings, (alookup p.stock_objects e.1).isSome :=
      fun e he => hres e ((sortByKey_perm p.holdings).mem_iff.mp he)
    have hrep : get_current_allocation p =
        .ok ((sortByKey p.holdings).filterMap (allocSel p.stock_objects T)) := by
      rw [get_current_allocation, hT]
      dsimp only
      rw [if_neg hT0, alloc_aux_eq p.stock_objects T _ [] hres']
      rw [List.nil_append]
    refine ⟨_, hrep, ?_, ?_⟩
    · intro hneg
      apply List.filterMap_eq_nil_iff.mpr
      intro e he
      rw [allocSel]
      cases hs : alookup p.stock_objects e.1 with
      | none => rfl
      | some stock =>
        simp only
        rw [if_neg hneg, if_neg (lt_irrefl 0)]
    · intro hpos
      refine ⟨pairwise_filterMap_allocSel _ _ _ (sortByKey_pairwise p.holdings), ?_, ?_⟩
      · intro a ha
        obtain ⟨e, he, hsel⟩ := List.mem_filterMap.mp ha
        rw [allocSel] at hsel
        cases hs : alookup p.stock_objects e.1 with
        | none => rw [hs] at hsel; cases hsel
        | some stock =>
          rw [hs] at hsel
          simp only at hsel
          rw [if_pos hpos] at hsel
          split_ifs at hsel with hpct
          rw [Option.some_inj] at hsel
          refine ⟨stock, ?_, ?_, ?_, ?_, ?_⟩
          · rw [← hsel]
            exact hs
          · rw [← hsel]
            exact (sortByKey_perm p.holdings).mem_iff.mp he
          · rw [← hsel]
          · rw [← hsel]
          · rw [← hsel]
            exact (pct_pos_iff _ T hpos).mp hpct
      · intro s sh stock hmem hs
        constructor
        · rintro ⟨a, ha, hsym⟩
          obtain ⟨e, he, hsel⟩ := List.mem_filterMap.mp ha
          have he1 : e.1 = s := by
            rw [← allocSel_symbol _ _ _ _ hsel, hsym]
          have hmem2 : (s, e.2) ∈ p.holdings := by
            rw [← he1]
            exact (sortByKey_perm p.holdings).mem_iff.mp he
          have hsh : e.2 = sh :=
            alookup_nodup_unique p.holdings s e.2 sh hnd hmem2 hmem
          rw [allocSel] at hsel
          rw [he1, hs] at hsel
          simp only at hsel
          rw [if_pos hpos] at hsel
          split_ifs at hsel with hpct
          rw [← hsh]
          exact (pct_pos_iff _ T hpos).mp hpct
        · intro hv
          have hmem' : (s, sh) ∈ sortByKey p.holdings :=
            (sortByKey_perm _).mem_iff.mpr hmem
          refine ⟨⟨s, sh, sh * stock.current_price,
            sh * stock.current_price / T * 100⟩, ?_, rfl⟩
          apply List.mem_filterMap.mpr
          refine ⟨(s, sh), hmem', ?_⟩
          rw [allocSel, hs]
          simp only
          rw [if_pos hpos, if_pos ((pct_pos_iff _ T hpos).mpr hv)]

/-- C8 witness: the amended report characterization applied to the
counterexample engine shows symbol `B` (positive value) is reported. -/
theorem c8_witness :
    ∃ l, get_current_allocation c8Portfolio = .ok l ∧ ∃ a ∈ l, a.symbol = "B" := by
  obtain ⟨l, hrep, hzero, hchar⟩ :=
    c8_amended c8Portfolio 3 c8_total_value
      (by
        intro e he
        simp [c8Portfolio] at he
        rcases he with h | h <;> rw [h] <;> decide)
      (by decide)
  obtain ⟨hsorted, hent, hiff⟩ := hchar (by norm_num)
  refine ⟨l, hrep, ?_⟩
  exact (hiff "B" 3 ⟨"B", 1⟩ (by simp [c8Portfolio]) (by simp [c8Portfolio, alookup])).mpr
    (by norm_num [Stock.current_price])

/-! ### Reference-level semantics of the holdings dict

Python assigns object references: `self.holdings = initial_holdings` stores
the caller's dict object itself.  To make aliasing observable the heap of
dict objects is explicit here: a `Heap` is the store of allocated dicts and
the engine holds an index into it. -/

/-- The store of allocated Python dict objects, addressed by index. -/
structure Heap where
  dicts : List (List (String × ℚ))
deriving DecidableEq, Repr

/-- The engine with its holdings as a reference into the heap: exactly what
`self.holdings = initial_holdings` produces. -/
structure PortfolioRef where
  stock_objects : List (String × Stock)
  target_allocation : List (String × ℚ)
  holdingsRef : Nat
deriving DecidableEq, Repr

/-- `Portfolio.__init__` at the reference level: the same validation as
`Portfolio.init`; a supplied `initial_holdings` dict is aliased — its
reference is stored unchanged and no copy is made — and only when the
argument is absent does the engine allocate a fresh empty dict of its own. -/
def initRef (all_tradable_stocks : List Stock)
    (target_allocation : List (String × ℚ))
    (initial_holdings : Option Nat) (h : Heap) : Except Err (PortfolioRef × Heap) :=
  if ¬ (target_allocation.map Prod.snd).sum = 1 then
    .error .invalidAllocation
  else
    let stock_objects := build_registry all_tradable_stocks
    if target_allocation.all (fun e => (alookup stock_objects e.1).isSome) then
      match initial_holdings with
      | some r => .ok (⟨stock_objects, target_allocation, r⟩, h)
      | none => .ok (⟨stock_objects, target_allocation, h.dicts.length⟩,
          ⟨h.dicts ++ [[]]⟩)
    else
      .error .unknownSymbol

/-- `Portfolio.add_position` at the reference level: `self.holdings[symbol] =
self.holdings.get(symbol, 0.0) + shares` mutates the referenced dict in
place, visible through every alias of it. -/
def add_positionRef (p : PortfolioRef) (symbol : String) (shares : ℚ)
    (h : Heap) : Except Err Unit × Heap :=
  if (alookup p.stock_objects symbol).isSome then
    if 0 < shares then
      let d := h.dicts.getD p.holdingsRef []
      (.ok (), ⟨h.dicts.set p.holdingsRef
        (aset d symbol ((alookup d symbol).getD 0 + shares))⟩)
    else
      (.ok (), h)
  else
    (.error .unknownSymbol, h)

theorem getD_set_self {α : Type} :
    ∀ (l : List α) (n : Nat) (x d : α), n < l.length →
      (l.set n x).getD n d = x := by
  intro l
  induction l with
  | nil =>
    intro n x d h
    simp at h
  | cons y ys ih =>
    intro n x d h
    cases n with
    | zero => rfl
    | succ m =>
      rw [List.set_cons_succ]
      rw [List.length_cons] at h
      exact ih m x d (Nat.lt_of_succ_lt_succ h)

/-- C9 counterexample: the caller's dict (heap slot 0, holding one AAPL
share) is aliased by construction — the heap is returned unchanged, no copy
is made — and a subsequent engine deposit rewrites that same slot, so the
caller's original map now reads AAPL ↦ 3 instead of AAPL ↦ 1. -/
theorem c9_counterexample :
    initRef [⟨"AAPL", 150⟩] [("AAPL", 1)] (some 0) ⟨[[("AAPL", 1)]]⟩ =
      .ok (⟨[("AAPL", ⟨"AAPL", 150⟩)], [("AAPL", 1)], 0⟩, ⟨[[("AAPL", 1)]]⟩)
    ∧ (add_positionRef ⟨[("AAPL", ⟨"AAPL", 150⟩)], [("AAPL", 1)], 0⟩ "AAPL" 2
        ⟨[[("AAPL", 1)]]⟩).2.dicts.getD 0 [] = [("AAPL", 3)]
    ∧ [("AAPL", (3 : ℚ))] ≠ [("AAPL", 1)] := by
  refine ⟨?_, ?_, ?_⟩
  · rw [initRef, if_neg (by norm_num)]
    dsimp only
    rw [if_pos (by decide)]
    rfl
  · simp [add_positionRef, alookup, aset]
    norm_num
  · simp

/-- C9 (amended): the engine does not copy the caller's holdings map — it
aliases it: construction with a supplied dict stores the caller's reference
unchanged and leaves the heap untouched (no copy is allocated), and a
subsequent engine deposit mutates the dict in the caller's slot in place, so
engine and caller share one mutable map. -/
theorem c9_amended (stocks : List Stock) (target : List (String × ℚ)) (r : Nat)
    (h : Heap) (p : PortfolioRef) (h' : Heap)
    (hr : r < h.dicts.length)
    (hinit : initRef stocks target (some r) h = .ok (p, h')) :
    p.holdingsRef = r ∧ h' = h
    ∧ (∀ s sh, (alookup p.stock_objects s).isSome → 0 < sh →
        (add_positionRef p s sh h).2.dicts.getD r [] =
          aset (h.dicts.getD r []) s
            ((alookup (h.dicts.getD r []) s).getD 0 + sh)) := by
  rw [initRef] at hinit
  by_cases h1 : ¬ (target.map Prod.snd).sum = 1
  · rw [if_pos h1] at hinit
    cases hinit
  · rw [if_neg h1] at hinit
    dsimp only at hinit
    by_cases h2 : (target.all fun e => (alookup (build_registry stocks) e.1).isSome) = true
    · rw [if_pos h2] at hinit
      rw [Except.ok.injEq, Prod.mk.injEq] at hinit
      obtain ⟨hp, hh⟩ := hinit
      have hpr : p.holdingsRef = r := by rw [← hp]
      refine ⟨hpr, hh.symm, ?_⟩
      intro s sh hs hsh
      rw [add_positionRef, if_pos hs, if_pos hsh]
      dsimp only
      rw [hpr]
      exact getD_set_self h.dicts r _ [] hr
    · rw [if_neg h2] at hinit
      cases hinit

/-- C9 witness: for the concrete caller dict {AAPL: 1} in heap slot 0, the
engine deposit of 2 AAPL shares rewrites the caller's slot in place. -/
theorem c9_witness :
    (add_positionRef ⟨[("AAPL", ⟨"AAPL", 150⟩)], [("AAPL", 1)], 0⟩ "AAPL" 2
      ⟨[[("AAPL", 1)]]⟩).2.dicts.getD 0 [] =
      aset ((⟨[[("AAPL", (1 : ℚ))]]⟩ : Heap).dicts.getD 0 []) "AAPL"
        ((alookup ((⟨[[("AAPL", (1 : ℚ))]]⟩ : Heap).dicts.getD 0 []) "AAPL").getD 0 + 2) :=
  (c9_amended [⟨"AAPL", 150⟩] [("AAPL", 1)] 0 ⟨[[("AAPL", 1)]]⟩
    ⟨[("AAPL", ⟨"AAPL", 150⟩)], [("AAPL", 1)], 0⟩ ⟨[[("AAPL", 1)]]⟩
    (by norm_num)
    (by
      rw [initRef, if_neg (by norm_num)]
      dsimp only
      rw [if_pos (by decide)]
      rfl)).2.2 "AAPL" 2 (by decide) (by norm_num)

end PortfolioRebalancer
